import Mathlib

/-!
# gcal2diary: the event-to-diary transformation

A shallow embedding of `diary.go` (package `gcal2diary`) together with the parts of the Go
standard library it calls (`time.Time`, `time.Date`, `Time.Format`, `strings.Split`), and
theorems about `DiaryWriter.Write`, `formatDate`, `formatTime` and `prefixString`.

Conventions of the embedding

* A Go `string` is a list of characters (`Str`); `strings.Builder` is a `Str` that grows by
  appending.
* Go's `int`, `int64` and `uint64` values are unbounded integers. The results are those of
  Go's wrapping arithmetic as long as the Unix seconds fit `int64` and the absolute seconds
  are non-negative and fit `uint64`, which is so for every RFC 3339 timestamp (years 0000 to
  9999) and for every day between two of them.
* A `time.Location` is a table of zone transitions, looked up as `Location.lookup` does. A
  table without transitions is a fixed zone (`time.UTC`, and the zone `time.Parse` fabricates
  for a numeric offset); `time.Local` of a zone with daylight saving time has transitions.
* Loops that Go writes as `for { ... }` take a fuel argument and return `none` when the fuel
  runs out before the loop has left.
-/

/-- A Go string, as the list of its characters. -/
abbrev Str := List Char

namespace time

/-! ## The model of package `time` -/

def secondsPerMinute : Int := 60
def secondsPerHour : Int := 60 * secondsPerMinute
def secondsPerDay : Int := 24 * secondsPerHour
def daysPer400Years : Int := 365 * 400 + 97
def daysPer100Years : Int := 365 * 100 + 24
def daysPer4Years : Int := 365 * 4 + 1

/-- The year of the absolute epoch, `absoluteZeroYear` in `time.go`. -/
def absoluteZeroYear : Int := -292277022399

/-- The constant `unixToInternal`: seconds from year 1 to 1970. -/
def unixToInternal : Int := (1969 * 365 + 1969 / 4 - 1969 / 100 + 1969 / 400) * secondsPerDay

/-- The constant `absoluteToInternal`: `(absoluteZeroYear - 1) * 365.2425 * secondsPerDay`. -/
def absoluteToInternal : Int := (absoluteZeroYear - 1) * 31556952

def internalToAbsolute : Int := -absoluteToInternal
def internalToUnix : Int := -unixToInternal

/-- A `time.Location`: the offset (seconds east of UTC) of the zone in use before the first
transition, and the transitions in increasing order of their time: from the Unix time `w` of
a transition `(w, offset)` on, the zone in use has that offset. A location without
transitions is a fixed zone, as `time.UTC` and the result of `time.FixedZone` are;
`time.Local` of a zone with daylight saving time has transitions. Zone names and the rule
that extends a loaded table beyond its last transition are left out. -/
structure Location where
  offset : Int
  tx : List (Int × Int)
  deriving DecidableEq, Repr

/-- The constant `alpha` of `zoneinfo.go`, the beginning of time. -/
def alpha : Int := -9223372036854775808

/-- The constant `omega` of `zoneinfo.go`, the end of time. -/
def omega : Int := 9223372036854775807

/-- The search of `Location.lookup` for the transition in effect at `sec`: `offset` and
`start` are those of the zone in use before the transitions that remain. -/
def lookupFrom : List (Int × Int) → Int → Int → Int → Int × Int × Int
  | [], offset, start, _ => (offset, start, omega)
  | (w, next) :: tx, offset, start, sec =>
    if sec < w then (offset, start, w) else lookupFrom tx next w sec

/-- The method `Location.lookup`: the offset of the zone in use at the Unix time `sec`, and
the Unix times `start` and `end` between which that zone is in use. -/
def Location.lookup (l : Location) (sec : Int) : Int × Int × Int :=
  lookupFrom l.tx l.offset alpha sec

/-- A `time.Time`: Unix seconds, nanoseconds within the second, and the location. -/
structure Time where
  sec : Int
  nsec : Nat
  loc : Location
  deriving DecidableEq, Repr

/-- The function `isLeap` of `time.go`. -/
def isLeap (year : Int) : Bool :=
  year % 4 == 0 && (year % 100 != 0 || year % 400 == 0)

/-- The table `daysBefore` of `time.go`: `daysBefore i` is the number of days in a non-leap
year before month `i + 1` begins. -/
def daysBeforeTable : List Int :=
  [0, 31, 31 + 28, 31 + 28 + 31, 31 + 28 + 31 + 30, 31 + 28 + 31 + 30 + 31,
   31 + 28 + 31 + 30 + 31 + 30, 31 + 28 + 31 + 30 + 31 + 30 + 31,
   31 + 28 + 31 + 30 + 31 + 30 + 31 + 31, 31 + 28 + 31 + 30 + 31 + 30 + 31 + 31 + 30,
   31 + 28 + 31 + 30 + 31 + 30 + 31 + 31 + 30 + 31,
   31 + 28 + 31 + 30 + 31 + 30 + 31 + 31 + 30 + 31 + 30,
   31 + 28 + 31 + 30 + 31 + 30 + 31 + 31 + 30 + 31 + 30 + 31]

/-- Indexing `daysBefore[i]`. -/
def daysBefore (i : Int) : Int := daysBeforeTable.getD i.toNat 0

/-- The method `Time.abs`: seconds since the absolute epoch, on the clock of the location. -/
def Time.abs (t : Time) : Int :=
  t.sec + (t.loc.lookup t.sec).1 + (unixToInternal + internalToAbsolute)

/-- The year computed by `absDate`, with the day of the year (`yday`, from 0). -/
def absYearDay (abs : Int) : Int × Int :=
  let d := abs / secondsPerDay
  -- Account for 400 year cycles.
  let n := d / daysPer400Years
  let y := 400 * n
  let d := d - daysPer400Years * n
  -- Cut off 100-year cycles.
  let n := d / daysPer100Years
  let n := n - n / 4
  let y := y + 100 * n
  let d := d - daysPer100Years * n
  -- Cut off 4-year cycles.
  let n := d / daysPer4Years
  let y := y + 4 * n
  let d := d - daysPer4Years * n
  -- Cut off years within a 4-year cycle.
  let n := d / 365
  let n := n - n / 4
  let y := y + n
  let d := d - 365 * n
  (y + absoluteZeroYear, d)

/-- The month and day of the month that `absDate` computes from the year and `yday`. -/
def monthDay (year yday : Int) : Int × Int :=
  let day := yday
  if isLeap year && day == 31 + 29 - 1 then
    -- Leap day.
    (2, 29)
  else
    -- After leap day; pretend it wasn't there.
    let day := if isLeap year && day > 31 + 29 - 1 then day - 1 else day
    -- Estimate month on assumption that every month has 31 days.
    let month := day / 31
    let stop := daysBefore (month + 1)
    let month' := if day >= stop then month + 1 else month
    let begin := if day >= stop then stop else daysBefore month
    (month' + 1, day - begin + 1)

/-- The function `absDate(abs, true)`: year, month, day of the month, day of the year. -/
def absDate (abs : Int) : Int × Int × Int × Int :=
  let yd := absYearDay abs
  let md := monthDay yd.1 yd.2
  (yd.1, md.1, md.2, yd.2)

/-- The function `absClock`: hour, minute and second within the day. -/
def absClock (abs : Int) : Int × Int × Int :=
  let sec := abs % secondsPerDay
  let hour := sec / secondsPerHour
  let sec := sec - hour * secondsPerHour
  let min := sec / secondsPerMinute
  let sec := sec - min * secondsPerMinute
  (hour, min, sec)

/-- The method `Time.Date`: year, month and day on which `t` occurs. -/
def Time.Date (t : Time) : Int × Int × Int :=
  let r := absDate t.abs
  (r.1, r.2.1, r.2.2.1)

def Time.Year (t : Time) : Int := (absDate t.abs).1
def Time.Month (t : Time) : Int := (absDate t.abs).2.1
def Time.Day (t : Time) : Int := (absDate t.abs).2.2.1
def Time.Hour (t : Time) : Int := (absClock t.abs).1
def Time.Minute (t : Time) : Int := (absClock t.abs).2.1
def Time.Second (t : Time) : Int := (absClock t.abs).2.2
def Time.Location (t : Time) : Location := t.loc

/-- The method `Time.Equal`: the two times are the same instant. -/
def Time.Equal (t u : Time) : Bool := t.sec == u.sec && t.nsec == u.nsec

/-- The method `Time.After`. -/
def Time.After (t u : Time) : Bool := t.sec > u.sec || (t.sec == u.sec && t.nsec > u.nsec)

/-- The function `norm` of `time.go`: `nhi * base + nlo = hi * base + lo` with
`0 <= nlo < base`. -/
def norm (hi lo base : Int) : Int × Int :=
  let r1 : Int × Int :=
    if lo < 0 then
      let n := (-lo - 1) / base + 1
      (hi - n, lo + n * base)
    else (hi, lo)
  if r1.2 >= base then
    let n := r1.2 / base
    (r1.1 + n, r1.2 - n * base)
  else r1

/-- The function `daysSinceEpoch` of `time.go`: days from the absolute epoch to the start of
`year`. -/
def daysSinceEpoch (year : Int) : Int :=
  let y := year - absoluteZeroYear
  -- Add in days from 400-year cycles.
  let n := y / 400
  let y := y - 400 * n
  let d := daysPer400Years * n
  -- Add in 100-year cycles.
  let n := y / 100
  let y := y - 100 * n
  let d := d + daysPer100Years * n
  -- Add in 4-year cycles.
  let n := y / 4
  let y := y - 4 * n
  let d := d + daysPer4Years * n
  -- Add in non-leap years.
  let n := y
  d + 365 * n

/-- The end of `time.Date`: from `unix`, the wanted clock reading taken as a Unix time, to
the Unix time at which the clock of `loc` has that reading. The offset is looked up at
`unix`, and looked up again at `unix` less that offset when this falls outside the time for
which the first zone is in use. -/
def zoneAdjust (loc : Location) (unix : Int) : Int :=
  -- Look for zone offset for expected time, so we can adjust to UTC.
  let r := loc.lookup unix
  if r.1 ≠ 0 then
    let utc := unix - r.1
    -- If utc is valid for the time zone we found, then we have the right offset.
    -- If not, we get the correct offset by looking up utc in the location.
    let offset := if utc < r.2.1 ∨ utc ≥ r.2.2 then (loc.lookup utc).1 else r.1
    unix - offset
  else unix

/-- The function `time.Date`. -/
def Date (year month day hour min sec nsec : Int) (loc : Location) : Time :=
  -- Normalize month, overflowing into year.
  let ym := norm year (month - 1) 12
  let year := ym.1
  let month := ym.2 + 1
  -- Normalize nsec, sec, min, hour, overflowing into day.
  let sn := norm sec nsec 1000000000
  let ms := norm min sn.1 60
  let hm := norm hour ms.1 60
  let dh := norm day hm.1 24
  -- Compute days since the absolute epoch.
  let d := daysSinceEpoch year
  -- Add in days before this month.
  let d := d + daysBefore (month - 1)
  let d := if isLeap year && month >= 3 then d + 1 else d
  -- Add in days before today.
  let d := d + (dh.1 - 1)
  -- Add in time elapsed today.
  let abs := d * secondsPerDay
  let abs := abs + (dh.2 * secondsPerHour + hm.2 * secondsPerMinute + ms.2)
  let unix := abs + (absoluteToInternal + internalToUnix)
  let unix := zoneAdjust loc unix
  ⟨unix, sn.2.toNat, loc⟩

/-! ### Calendar days and instants, for stating the properties -/

/-- The day count that `time.Date` computes from a year, month and day. -/
def civilDays (year month day : Int) : Int :=
  (if (isLeap year && decide (month ≥ 3)) = true then
      daysSinceEpoch year + daysBefore (month - 1) + 1
    else daysSinceEpoch year + daysBefore (month - 1)) + (day - 1)

/-- The calendar day on which `t` occurs in its location, as a count of days from the
absolute epoch. Two times of one location are on the same calendar day exactly when they
have the same `absDay`. -/
def Time.absDay (t : Time) : Int := t.abs / secondsPerDay

/-- The time that `time.Date` gives for `00:00:00.0` of the calendar day `day` in `loc`. -/
def midnight (day : Int) (loc : Location) : Time :=
  ⟨zoneAdjust loc (day * secondsPerDay - (unixToInternal + internalToAbsolute)), 0, loc⟩

/-- The calendar day `day` begins, in the location, with a midnight that `time.Date` finds:
at the time it gives for `00:00:00.0` of that day, the clock of the location reads
`00:00:00` of that day. This fails on a day whose first hour is skipped by a change to
daylight saving time. -/
def Location.hasMidnight (l : Location) (day : Int) : Prop :=
  (midnight day l).abs = day * secondsPerDay

instance (l : Location) (day : Int) : Decidable (l.hasMidnight day) := by
  unfold Location.hasMidnight; exact inferInstance

/-- The time `t` is exactly midnight on the clock of its location. -/
def Time.isMidnight (t : Time) : Prop := t.abs % secondsPerDay = 0 ∧ t.nsec = 0

instance (t : Time) : Decidable t.isMidnight := by
  unfold Time.isMidnight; exact inferInstance

/-- The instant `t` is not later than the instant `u` (`t <= u`). -/
def Time.le (t u : Time) : Prop := t.After u = false

instance (t u : Time) : Decidable (t.le u) := by
  unfold Time.le; exact inferInstance

/-- The time `t` is the instant with which its calendar day begins: the time that
`time.Date` gives for `00:00:00.0` of the day of `t` in the location of `t`. -/
def Time.beginsDay (t : Time) : Prop := (midnight t.absDay t.loc).Equal t = true

instance (t : Time) : Decidable t.beginsDay := by
  unfold Time.beginsDay; exact inferInstance

/-! ### Formatting and parsing -/

/-- The digit byte `'0' + u`. -/
def digitChar (u : Nat) : Char := Char.ofNat (48 + u)

/-- The decimal digits of `u`, assembled from the least significant one as `appendInt` does in
its 20-byte buffer; `fuel` bounds the number of divisions by ten. -/
def decimalDigits : Nat → Nat → Str → Str
  | 0, u, acc => digitChar u :: acc
  | fuel + 1, u, acc =>
    if u ≥ 10 then decimalDigits fuel (u / 10) (digitChar (u - u / 10 * 10) :: acc)
    else digitChar u :: acc

/-- The function `appendInt` of `format.go`: append the decimal form of `x`, zero-padded to
`width` digits, to `b`. -/
def appendInt (b : Str) (x : Int) (width : Nat) : Str :=
  let b := if x < 0 then b ++ ['-'] else b
  let ds := decimalDigits 19 x.natAbs []
  b ++ List.replicate (width - ds.length) '0' ++ ds

/-- The loop of `Time.AppendFormat` over a layout, for the layout elements `2006`, `01`, `02`,
`15`, `04` and `05`; any other character of the layout is copied. Layout elements that the
package does not use are not modelled. -/
def appendFormat (year month day hour min sec : Int) : Str → Str → Str
  | '2' :: '0' :: '0' :: '6' :: layout, b =>
    appendFormat year month day hour min sec layout (appendInt b year 4)
  | '0' :: '1' :: layout, b => appendFormat year month day hour min sec layout (appendInt b month 2)
  | '0' :: '2' :: layout, b => appendFormat year month day hour min sec layout (appendInt b day 2)
  | '1' :: '5' :: layout, b => appendFormat year month day hour min sec layout (appendInt b hour 2)
  | '0' :: '4' :: layout, b => appendFormat year month day hour min sec layout (appendInt b min 2)
  | '0' :: '5' :: layout, b => appendFormat year month day hour min sec layout (appendInt b sec 2)
  | c :: layout, b => appendFormat year month day hour min sec layout (b ++ [c])
  | [], b => b

/-- The method `Time.Format`. -/
def Time.Format (t : Time) (layout : Str) : Str :=
  let date := absDate t.abs
  let clock := absClock t.abs
  appendFormat date.1 date.2.1 date.2.2.1 clock.1 clock.2.1 clock.2.2 layout []

/-- The function `daysIn` of `time.go`. -/
def daysIn (m year : Int) : Int :=
  if m == 2 && isLeap year then 29 else daysBefore m - daysBefore (m - 1)

/-- The location `time.UTC`. -/
def UTC : Location := ⟨0, []⟩

/-- The value of a decimal digit character. -/
def digitValue (c : Char) : Option Int :=
  if '0' ≤ c ∧ c ≤ '9' then some (Int.ofNat (c.toNat - 48)) else none

/-- Read a run of decimal digits as a number. -/
def readDigits : Str → Int → Option Int
  | [], acc => some acc
  | c :: cs, acc =>
    match digitValue c with
    | none => none
    | some v => readDigits cs (acc * 10 + v)

/-- The function `getnum` of `format.go`: a number of two digits, or of one digit when
`fixed` is false and no second digit follows, with the rest of the text. -/
def getnum (s : Str) (fixed : Bool) : Option (Int × Str) :=
  match s with
  | [] => none
  | c0 :: rest =>
    match digitValue c0 with
    | none => none
    | some v0 =>
      match rest with
      | [] => if fixed then none else some (v0, rest)
      | c1 :: rest1 =>
        match digitValue c1 with
        | some v1 => some (v0 * 10 + v1, rest1)
        | none => if fixed then none else some (v0, rest)

/-- The function `skip` of `format.go` for a literal character of the layout. -/
def skip (value : Str) (c : Char) : Option Str :=
  match value with
  | [] => none
  | c0 :: rest => if c0 = c then some rest else none

/-- The function `parseNanoseconds` on the digits of a fractional second: the first nine
digits, padded with zeros on the right (`k` is the number of digits still wanted). -/
def readNanos : Str → Nat → Int → Option Int
  | [], k, acc => some (acc * 10 ^ k)
  | c :: cs, k, acc =>
    match digitValue c with
    | none => none
    | some v => if k = 0 then readNanos cs 0 acc else readNanos cs (k - 1) (acc * 10 + v)

/-- The fractional second that `parse` accepts after the seconds although the layout has
none: a period or a comma followed by at least one digit. Gives the nanoseconds and the rest
of the text. -/
def readFraction (value : Str) : Option (Int × Str) :=
  match value with
  | c :: d :: rest =>
    if (c = '.' ∨ c = ',') ∧ (digitValue d).isSome then
      match readNanos ((d :: rest).takeWhile Char.isDigit) 9 0 with
      | some ns => some (ns, (d :: rest).dropWhile Char.isDigit)
      | none => none
    else some (0, value)
  | _ => some (0, value)

/-- The layout element `Z07:00`: `Z` (the result `none`, for UTC), or a sign, two digits, a
colon and two digits (the offset in seconds); hours up to 24 and minutes up to 60 are
accepted, as in `parse`. With the rest of the text. -/
def readZone (value : Str) : Option (Option Int × Str) :=
  match value with
  | 'Z' :: rest => some (none, rest)
  | sign :: h1 :: h2 :: c :: m1 :: m2 :: rest =>
    if c ≠ ':' then none
    else
      match getnum [h1, h2] true, getnum [m1, m2] true with
      | some (hr, _), some (mm, _) =>
        if hr > 24 ∨ mm > 60 then none
        else if sign = '+' then some (some ((hr * 60 + mm) * 60), rest)
        else if sign = '-' then some (some (-((hr * 60 + mm) * 60)), rest)
        else none
      | _, _ => none
  | _ => none

/-- The fields of a timestamp in the layout `2006-01-02T15:04:05Z07:00`, read as `parse`
reads them: a year of four digits, month, day, minute and second of two digits, an hour of
one or two digits, an optional fractional second, the zone, and nothing after it. -/
structure Fields where
  year : Int
  month : Int
  day : Int
  hour : Int
  min : Int
  sec : Int
  nsec : Int
  zone : Option Int
  deriving DecidableEq, Repr

/-- The scan of `parse` over the layout `time.RFC3339`, with its range checks. -/
def readFields (value : Str) : Except Str Fields :=
  let bad : Except Str Fields := .error "cannot parse timestamp".toList
  match value with
  | y1 :: y2 :: y3 :: y4 :: value =>
    match readDigits [y1, y2, y3, y4] 0, skip value '-' with
    | some year, some value =>
      match getnum value true with
      | none => bad
      | some (month, value) =>
        if month ≤ 0 ∨ 12 < month then .error "month out of range".toList
        else
          match skip value '-' with
          | none => bad
          | some value =>
            match getnum value true with
            | none => bad
            | some (day, value) =>
              match skip value 'T' with
              | none => bad
              | some value =>
                match getnum value false with
                | none => bad
                | some (hour, value) =>
                  if hour < 0 ∨ 24 ≤ hour then .error "hour out of range".toList
                  else
                    match skip value ':' with
                    | none => bad
                    | some value =>
                      match getnum value true with
                      | none => bad
                      | some (min, value) =>
                        if min < 0 ∨ 60 ≤ min then .error "minute out of range".toList
                        else
                          match skip value ':' with
                          | none => bad
                          | some value =>
                            match getnum value true with
                            | none => bad
                            | some (sec, value) =>
                              if sec < 0 ∨ 60 ≤ sec then .error "second out of range".toList
                              else
                                match readFraction value with
                                | none => bad
                                | some (nsec, value) =>
                                  match readZone value with
                                  | some (zone, []) =>
                                    .ok { year := year, month := month, day := day,
                                          hour := hour, min := min, sec := sec, nsec := nsec,
                                          zone := zone }
                                  | _ => bad
    | _, _ => bad
  | _ => bad

/-- The function `time.Parse(time.RFC3339, value)` on a machine whose `time.Local` is
`Local`: the fields are read and range-checked; with `Z` the result is `Date(...)` in UTC;
with a numeric offset the instant is `Date(...)` in UTC moved back by the offset, and the
location is `Local` when `Local` has that offset at that instant, and otherwise the fixed
zone of that offset. -/
def ParseRFC3339In (Local : Location) (value : Str) : Except Str Time :=
  match readFields value with
  | .error err => .error err
  | .ok f =>
    -- Validate the day of the month.
    if f.day < 1 ∨ f.day > daysIn f.month f.year then .error "day out of range".toList
    else
      let t := Date f.year f.month f.day f.hour f.min f.sec f.nsec UTC
      match f.zone with
      | none => .ok t
      | some zoneOffset =>
        let unix := t.sec - zoneOffset
        -- Look for local zone with the given offset. If a match is found, use it.
        if (Local.lookup unix).1 = zoneOffset then .ok ⟨unix, t.nsec, Local⟩
        -- Otherwise create fake zone.
        else .ok ⟨unix, t.nsec, ⟨zoneOffset, []⟩⟩

/-- The function `time.Parse(time.RFC3339, value)` on a machine whose `time.Local` is UTC. -/
def ParseRFC3339 (s : Str) : Except Str Time := ParseRFC3339In UTC s

end time

namespace strings

/-- The function `strings.Split(s, sep)` for a one-byte separator: the pieces of `s` between
the occurrences of `sep`; one more piece than there are occurrences. -/
def Split : Str → Char → List Str
  | [], _ => [[]]
  | c :: cs, sep =>
    if c = sep then [] :: Split cs sep
    else
      match Split cs sep with
      | [] => [[c]]
      | piece :: pieces => (c :: piece) :: pieces

end strings

namespace gcal2diary

open time

/-! ## The package `gcal2diary` (`diary.go`) -/

/-- The type `DateStyle`, an `int`. -/
abbrev DateStyle := Int

def DateStyleISO : DateStyle := 0
def DateStyleUS : DateStyle := 1
def DateStyleEU : DateStyle := 2

/-- An `io.Writer` over sink states `σ`: `Write` gives the sink after the call and the error
it reports (`none` for `nil`). -/
structure Writer (σ : Type) where
  Write : σ → Str → σ × Option Str

/-- The struct `DiaryWriter`. -/
structure DiaryWriter (σ : Type) where
  w : Writer σ
  dateStyle : DateStyle

def NewDiaryWriter {σ : Type} (w : Writer σ) (dateStyle : DateStyle) : DiaryWriter σ :=
  { w := w, dateStyle := dateStyle }

/-- The struct `calendar.EventDateTime`, with the two fields `Write` reads. -/
structure EventDateTime where
  Date : Str
  DateTime : Str
  deriving DecidableEq, Repr

/-- The struct `calendar.Event`, with the fields `Write` reads. -/
structure Event where
  Start : EventDateTime
  End : EventDateTime
  Summary : Str
  Location : Str
  Description : Str
  deriving DecidableEq, Repr

/-- The local struct `timeRange` of `Write`. -/
structure timeRange where
  date : Time
  start : Str
  end_ : Str
  deriving DecidableEq, Repr

/-- The method `DiaryWriter.formatTime`. -/
def formatTime (t : Time) : Str := t.Format "15:04".toList

/-- The method `DiaryWriter.formatDate`; `Except.error` is the panic. -/
def formatDate (dateStyle : DateStyle) (t : Time) : Except Str Str :=
  if dateStyle = DateStyleISO then .ok (t.Format "2006/01/02".toList)
  else if dateStyle = DateStyleUS then .ok (t.Format "02/01/2006".toList)
  else if dateStyle = DateStyleEU then .ok (t.Format "01/02/2006".toList)
  else .error "unknown date style".toList

/-- The loop of `prefixString` over the lines, from index `i`, with `n = len(lines)`. -/
def prefixLoop (n : Nat) : Nat → List Str → Str → Str
  | _, [], sb => sb
  | i, line :: lines, sb =>
    let sb := if i ≠ 0 then sb ++ " ".toList else sb
    let sb := sb ++ line
    let sb := if i < n - 1 then sb ++ "\n".toList else sb
    prefixLoop n (i + 1) lines sb

/-- The method `DiaryWriter.prefixString`. -/
def prefixString (s : Str) : Str :=
  let lines := strings.Split s '\n'
  prefixLoop lines.length 0 lines []

/-- The first loop of `Write`, which walks `begin` from `start` one midnight at a time and
collects the time ranges; `none` when `fuel` iterations did not reach a `break`. -/
def splitLoop : Nat → Time → Time → List timeRange → Option (List timeRange)
  | 0, _, _, _ => none
  | fuel + 1, begin, end_, timeRanges =>
    let bDate := begin.Date
    let eDate := end_.Date
    let beginDate := Date begin.Year begin.Month begin.Day 0 0 0 0 begin.Location
    if bDate.1 == eDate.1 && bDate.2.1 == eDate.2.1 && bDate.2.2 == eDate.2.2 then
      some (timeRanges ++ [{ date := beginDate, start := formatTime begin, end_ := formatTime end_ }])
    else
      let timeRanges :=
        timeRanges ++ [{ date := beginDate, start := formatTime begin, end_ := "24:00".toList }]
      let begin := Date begin.Year begin.Month (begin.Day + 1) 0 0 0 0 begin.Location
      if begin.Equal end_ then some timeRanges
      else splitLoop fuel begin end_ timeRanges

/-- The second loop of `Write`, which appends one block per time range to the builder `s`;
`Except.error` is the panic of `formatDate`. -/
def renderLoop (dateStyle : DateStyle) (event : Event) : List timeRange → Str → Except Str Str
  | [], s => .ok s
  | timeRange :: rest, s =>
    match formatDate dateStyle timeRange.date with
    | .error msg => .error msg
    | .ok date =>
      let s := s ++ date
      let s := s ++ " ".toList
      let s := s ++ (timeRange.start ++ "-".toList ++ timeRange.end_)
      let s := s ++ " ".toList
      let s := s ++ event.Summary
      let s := s ++ "\n".toList
      let s :=
        if event.Location ≠ [] then
          let s := s ++ " Location: ".toList
          let s := s ++ prefixString event.Location
          s ++ "\n".toList
        else s
      let s :=
        if event.Description ≠ [] then
          let s := s ++ " Description: ".toList
          let s := s ++ prefixString event.Description
          s ++ "\n".toList
        else s
      renderLoop dateStyle event rest s

/-- How a call of `Write` ends: it returns an `error` (`none` for `nil`), or it panics; both
with the state in which the sink is left. -/
inductive Outcome (σ : Type) where
  | returned (err : Option Str) (sink : σ)
  | panicked (msg : Str) (sink : σ)

/-- The method `DiaryWriter.Write`. `parse` is `time.Parse(time.RFC3339, ·)`; the result is
`none` when the first loop is still running after `fuel` iterations. -/
def Write {σ : Type} (parse : Str → Except Str Time) (w : DiaryWriter σ) (fuel : Nat)
    (event : Event) (sink : σ) : Option (Outcome σ) :=
  let s : Str := []
  match parse event.Start.DateTime with
  | .error err =>
    some (.returned
      (some ("parsing event start time ".toList ++ event.Start.Date ++ ": ".toList ++ err)) sink)
  | .ok start =>
    match parse event.End.DateTime with
    | .error err =>
      some (.returned
        (some ("parsing event end time ".toList ++ event.End.Date ++ ": ".toList ++ err)) sink)
    | .ok end_ =>
      match splitLoop fuel start end_ [] with
      | none => none
      | some timeRanges =>
        match renderLoop w.dateStyle event timeRanges s with
        | .error msg => some (.panicked msg sink)
        | .ok s =>
          -- the error that the sink returns is dropped
          let r := w.w.Write sink s
          some (.returned none r.1)

/-! ## Definitions used to state the properties -/

/-- The clock time of `t` written `HH:MM`: two digits of the hour, a colon, two digits of the
minute. -/
def clockLabel (t : Time) : Str :=
  [digitChar (t.Hour.toNat / 10), digitChar (t.Hour.toNat % 10), ':',
   digitChar (t.Minute.toNat / 10), digitChar (t.Minute.toNat % 10)]

/-- The two times are in one location, the calendar day of `s` is not after that of `e`, and
every calendar day from the day of `s` to the day of `e` begins with a midnight that
`time.Date` finds. -/
def regularSpan (s e : Time) : Prop :=
  s.loc = e.loc ∧ s.absDay ≤ e.absDay ∧
    ∀ i : Nat, i ≤ (e.absDay - s.absDay).toNat → s.loc.hasMidnight (s.absDay + i)

instance (s e : Time) : Decidable (regularSpan s e) := by
  unfold regularSpan; exact inferInstance

/-- The number of time ranges the first loop of `Write` collects when it starts at `b`, on or
before the day of `e`: one per calendar day from the day of `b` to the day of `e`, except
that the day of `e` gets none when it is a later day than that of `b` and `e` is the instant
with which it begins. -/
def rangeCount (b e : Time) : Nat :=
  if b.absDay = e.absDay then 1
  else (e.absDay - b.absDay).toNat + (if e.beginsDay then 0 else 1)

/-- The time range number `i` (from 0) that the first loop of `Write` collects when it starts
at `b`. -/
def rangeAt (b e : Time) (i : Nat) : timeRange :=
  { date := midnight (b.absDay + i) b.loc
    start := if i = 0 then formatTime b else "00:00".toList
    end_ := if b.absDay + i = e.absDay then formatTime e else "24:00".toList }

/-- The time ranges of the interval from `b` to `e`, in closed form. -/
def expectedRanges (b e : Time) : List timeRange :=
  (List.range (rangeCount b e)).map (rangeAt b e)

/-- The date style is one of the three that `formatDate` knows. -/
def recognised (dateStyle : DateStyle) : Prop :=
  dateStyle = DateStyleISO ∨ dateStyle = DateStyleUS ∨ dateStyle = DateStyleEU

/-- The text of a calendar day in a recognised date style. -/
def dateText (dateStyle : DateStyle) (t : Time) : Str :=
  match formatDate dateStyle t with
  | .ok date => date
  | .error _ => []

/-- The block of one diary entry as the specification lays it out: the formatted day, the two
labels joined by a hyphen, the summary, then the Location line and the Description line, each
only when the field is not empty. -/
def blockText (event : Event) (date startLabel endLabel : Str) : Str :=
  date ++ " ".toList ++ startLabel ++ "-".toList ++ endLabel ++ " ".toList ++ event.Summary ++
    "\n".toList ++
    (if event.Location = [] then []
      else " Location: ".toList ++ prefixString event.Location ++ "\n".toList) ++
    (if event.Description = [] then []
      else " Description: ".toList ++ prefixString event.Description ++ "\n".toList)

/-- The text of all blocks of an event, one per time range, in order. -/
def blocksText (dateStyle : DateStyle) (event : Event) (timeRanges : List timeRange) : Str :=
  (timeRanges.map (fun r => blockText event (dateText dateStyle r.date) r.start r.end_)).flatten

/-- A sink that keeps everything written to it and never fails. -/
def bufferSink : Writer Str := { Write := fun sink p => (sink ++ p, none) }

/-- The number of distinct calendar days that the interval `[s, e)` touches: none when `e` is
not after `s`, otherwise the days from the day of `s` to the day of the last instant (one
nanosecond) before `e`. -/
def daysTouched (s e : Time) : Nat :=
  if e.After s = true then
    ((e.abs - (if e.nsec = 0 then 1 else 0)) / secondsPerDay - s.absDay + 1).toNat
  else 0

/-- An event with the given timestamps and description, the summary `Standup` and no
location. -/
def exampleEvent (startText endText description : String) : Event :=
  { Start := { Date := [], DateTime := startText.toList }
    End := { Date := [], DateTime := endText.toList }
    Summary := "Standup".toList
    Location := []
    Description := description.toList }

/-- A label `HH:MM` read as a number of seconds after midnight; `24:00` reads as the whole
day, that is the following midnight. -/
def labelSeconds : Str → Option Int
  | [h1, h2, ':', m1, m2] =>
    match digitValue h1, digitValue h2, digitValue m1, digitValue m2 with
    | some a, some b, some c, some d =>
      some ((a * 10 + b) * secondsPerHour + (c * 10 + d) * secondsPerMinute)
    | _, _, _, _ => none
  | _ => none

/-- Where the span of a time range begins: its start label read on its day, as a position on
the clock of the location (seconds from the absolute epoch, as `Time.abs` counts them). -/
def spanStart (r : timeRange) : Option Int :=
  (labelSeconds r.start).map (fun x => r.date.absDay * secondsPerDay + x)

/-- Where the span of a time range ends: its end label read on its day, as a position on the
clock of the location; `24:00` is the midnight that follows. -/
def spanEnd (r : timeRange) : Option Int :=
  (labelSeconds r.end_).map (fun x => r.date.absDay * secondsPerDay + x)

/-- Where the clock minute of `t` begins, as a position on the clock of the location. -/
def minuteStart (t : Time) : Int := t.abs - t.abs % secondsPerMinute

/-- The transitions of `America/Santiago` from April 2024 to September 2025: daylight saving
time (UTC-3) ends on 2024-04-07 and 2025-04-06 at 03:00 UTC and begins on 2024-09-08 and
2025-09-07 at 04:00 UTC, when the clock goes from 24:00 straight to 01:00. -/
def santiago : Location :=
  { offset := -10800
    tx := [(1712458800, -14400), (1725768000, -10800), (1743908400, -14400),
           (1757217600, -10800)] }

/-- The transitions of `Africa/Cairo` in 2024: daylight saving time (UTC+3) begins on
2024-04-25 at 22:00 UTC, when the clock goes from 24:00 straight to 01:00, and ends on
2024-10-31 at 21:00 UTC. -/
def cairo : Location :=
  { offset := 7200
    tx := [(1714082400, 10800), (1730408400, 7200)] }

/-- The indentation of a text as the specification words it: split the text on line breaks,
emit the first line unmodified, then every subsequent line preceded by a line break and a
single space; nothing follows the final line. -/
def indentSpec (text : Str) : Str :=
  match strings.Split text '\n' with
  | [] => []
  | first :: rest => first ++ (rest.map (fun line => "\n".toList ++ " ".toList ++ line)).flatten

/-- A sink that rejects every write: it keeps its contents and reports an error. -/
def brokenSink : Writer Str := { Write := fun sink _ => (sink, some "broken pipe".toList) }

/-- An event of two days with a two-line location and no description. -/
def tripEvent : Event :=
  { Start := { Date := [], DateTime := "2024-03-10T22:00:00Z".toList }
    End := { Date := [], DateTime := "2024-03-11T06:30:00Z".toList }
    Summary := "Trip".toList
    Location := "Room 1\nFloor 2".toList
    Description := [] }

/-- An all-day event: the provider fills in `Date` and leaves `DateTime` empty. -/
def allDayEvent : Event :=
  { Start := { Date := "2024-05-01".toList, DateTime := [] }
    End := { Date := "2024-05-02".toList, DateTime := [] }
    Summary := "Holiday".toList
    Location := []
    Description := [] }

/-- A number from 0 to 99 written with two digits, zero-padded. -/
def twoDigits (x : Int) : Str := [digitChar (x.toNat / 10), digitChar (x.toNat % 10)]

/-- A number from 0 to 9999 written with four digits, zero-padded. -/
def fourDigits (x : Int) : Str :=
  [digitChar (x.toNat / 1000), digitChar (x.toNat / 100 % 10), digitChar (x.toNat / 10 % 10),
   digitChar (x.toNat % 10)]

/-- The date style selection of `main` (`cmd/gcal2diary/main.go`): the switch on the
lower-cased flag value. `toLower` is `strings.ToLower`; `Except.error` is the exit of
`log.Fatalf`, which happens before the writer is constructed. -/
def main.dateStyle (toLower : Str → Str) (flagDateStyle : Str) : Except Str DateStyle :=
  let name := toLower flagDateStyle
  if name = "iso".toList then .ok DateStyleISO
  else if name = "us".toList then .ok DateStyleUS
  else if name = "eu".toList then .ok DateStyleEU
  else .error ("Invalid date style ".toList ++ flagDateStyle ++
    ". iso, us, and eu are supported".toList)

/-- The function `strings.ToLower` on a text of ASCII characters, for the examples: the
letters `A` to `Z` become `a` to `z` and every other character stays. -/
def asciiLower (s : Str) : Str := s.map Char.toLower

instance (dateStyle : DateStyle) : Decidable (recognised dateStyle) := by
  unfold recognised; exact inferInstance

/-- A sink that records every call of its `Write`, in order, and never fails. -/
def recordingSink : Writer (List Str) := { Write := fun calls p => (calls ++ [p], none) }

/-- The text with every line break replaced by a line break and one space, as
`strings.ReplaceAll(s, "\n", "\n ")` gives it. -/
def indentNewlines : Str → Str
  | [] => []
  | c :: cs => if c = '\n' then '\n' :: ' ' :: indentNewlines cs else c :: indentNewlines cs

/-- The text with the one character that follows each line break deleted when it is a space;
`afterNewline` tells that the previous character was a line break. -/
def dropIndent : Bool → Str → Str
  | _, [] => []
  | afterNewline, c :: cs =>
    if afterNewline = true ∧ c = ' ' then dropIndent false cs
    else c :: dropIndent (c == '\n') cs

end gcal2diary

/-! ## The calendar arithmetic of package `time` -/

namespace time

theorem isLeap_iff (year : Int) :
    isLeap year = true ↔ year % 4 = 0 ∧ (year % 100 ≠ 0 ∨ year % 400 = 0) := by
  simp [isLeap]

theorem daysBefore_vals :
    daysBefore 0 = 0 ∧ daysBefore 1 = 31 ∧ daysBefore 2 = 59 ∧ daysBefore 3 = 90 ∧
    daysBefore 4 = 120 ∧ daysBefore 5 = 151 ∧ daysBefore 6 = 181 ∧ daysBefore 7 = 212 ∧
    daysBefore 8 = 243 ∧ daysBefore 9 = 273 ∧ daysBefore 10 = 304 ∧ daysBefore 11 = 334 ∧
    daysBefore 12 = 365 := by decide

/-- The month arithmetic of `absDate` after the leap day has been taken out: `day` is the day
of a 365-day year, from 0. -/
theorem month_estimate (day : Int) (h0 : 0 ≤ day) (h1 : day < 365) :
    0 ≤ (if day >= daysBefore (day / 31 + 1) then day / 31 + 1 else day / 31) ∧
    (if day >= daysBefore (day / 31 + 1) then day / 31 + 1 else day / 31) ≤ 11 ∧
    (if day >= daysBefore (day / 31 + 1) then daysBefore (day / 31 + 1)
        else daysBefore (day / 31)) =
      daysBefore (if day >= daysBefore (day / 31 + 1) then day / 31 + 1 else day / 31) ∧
    (if day >= daysBefore (day / 31 + 1) then daysBefore (day / 31 + 1)
        else daysBefore (day / 31)) ≤ day ∧
    day - (if day >= daysBefore (day / 31 + 1) then daysBefore (day / 31 + 1)
        else daysBefore (day / 31)) + 1 ≤ 31 ∧
    ((if day >= daysBefore (day / 31 + 1) then day / 31 + 1 else day / 31) ≤ 1 ↔ day < 59) := by
  obtain ⟨v0, v1, v2, v3, v4, v5, v6, v7, v8, v9, v10, v11, v12⟩ := daysBefore_vals
  have c : day / 31 = 0 ∨ day / 31 = 1 ∨ day / 31 = 2 ∨ day / 31 = 3 ∨ day / 31 = 4 ∨
      day / 31 = 5 ∨ day / 31 = 6 ∨ day / 31 = 7 ∨ day / 31 = 8 ∨ day / 31 = 9 ∨
      day / 31 = 10 ∨ day / 31 = 11 := by omega
  rcases c with c | c | c | c | c | c | c | c | c | c | c | c <;> rw [c] <;>
    norm_num only [v0, v1, v2, v3, v4, v5, v6, v7, v8, v9, v10, v11, v12] <;>
    split_ifs <;>
    simp only [v0, v1, v2, v3, v4, v5, v6, v7, v8, v9, v10, v11, v12] <;>
    exact ⟨by omega, by omega, trivial, by omega, by omega, by omega⟩

/-- The month and day that `absDate` gives lead back to the day of the year through the
table `daysBefore`, as `time.Date` adds them up. -/
theorem monthDay_spec (year yday : Int) (h0 : 0 ≤ yday)
    (h1 : yday < 365 ∨ (yday = 365 ∧ isLeap year = true)) :
    0 ≤ (monthDay year yday).1 - 1 ∧ (monthDay year yday).1 - 1 < 12 ∧
    1 ≤ (monthDay year yday).2 ∧ (monthDay year yday).2 ≤ 31 ∧
    daysBefore ((monthDay year yday).1 - 1) +
      (if (isLeap year && decide ((monthDay year yday).1 ≥ 3)) = true then 1 else 0) +
      ((monthDay year yday).2 - 1) = yday := by
  obtain ⟨v0, v1, v2, v3, v4, v5, v6, v7, v8, v9, v10, v11, v12⟩ := daysBefore_vals
  cases hL : isLeap year
  · have hy : yday < 365 := by
      rcases h1 with h | ⟨_, h⟩
      · exact h
      · simp [hL] at h
    obtain ⟨e1, e2, e3, e4, e5, -⟩ := month_estimate yday h0 hy
    simp only [monthDay, hL, Bool.false_and, Bool.false_eq_true, if_false, add_sub_cancel_right]
    rw [e3]
    exact ⟨by omega, by omega, by omega, by omega, by omega⟩
  · by_cases h59 : yday = 59
    · subst h59
      simp [monthDay, hL, v1]
    · by_cases hgt : yday > 59
      · obtain ⟨e1, e2, e3, e4, e5, e6⟩ := month_estimate (yday - 1) (by omega) (by omega)
        have hm : ¬ ((if yday - 1 >= daysBefore ((yday - 1) / 31 + 1) then (yday - 1) / 31 + 1
            else (yday - 1) / 31) ≤ 1) := by
          rw [e6]; omega
        simp only [monthDay, hL, Bool.true_and, beq_iff_eq, h59, if_false, decide_eq_true_eq,
          hgt, if_true, add_sub_cancel_right, Nat.reduceAdd, Nat.reduceSub, Int.reduceAdd, Int.reduceSub]
        rw [e3]
        have h3 : (if yday - 1 >= daysBefore ((yday - 1) / 31 + 1) then (yday - 1) / 31 + 1
            else (yday - 1) / 31) + 1 ≥ 3 := by omega
        rw [if_pos h3]
        exact ⟨by omega, by omega, by omega, by omega, by omega⟩
      · obtain ⟨e1, e2, e3, e4, e5, e6⟩ := month_estimate yday h0 (by omega)
        have hm : ((if yday >= daysBefore (yday / 31 + 1) then yday / 31 + 1
            else yday / 31) ≤ 1) := by
          rw [e6]; omega
        simp only [monthDay, hL, Bool.true_and, beq_iff_eq, h59, if_false, decide_eq_true_eq,
          hgt, if_true, add_sub_cancel_right, Nat.reduceAdd, Nat.reduceSub, Int.reduceAdd, Int.reduceSub]
        rw [e3]
        have h3 : ¬ ((if yday >= daysBefore (yday / 31 + 1) then yday / 31 + 1
            else yday / 31) + 1 ≥ 3) := by omega
        rw [if_neg h3]
        exact ⟨by omega, by omega, by omega, by omega, by omega⟩


theorem secondsPerDay_eq : secondsPerDay = 86400 := by decide
theorem daysPer400Years_eq : daysPer400Years = 146097 := by decide
theorem daysPer100Years_eq : daysPer100Years = 36524 := by decide
theorem daysPer4Years_eq : daysPer4Years = 1461 := by decide

theorem cut_years (d3 n4 m4 d4 : Int) (h0 : 0 ≤ d3) (h1 : d3 ≤ 1460)
    (h8 : n4 = d3 / 365) (h9 : m4 = n4 - n4 / 4) (h10 : d4 = d3 - 365 * m4) :
    0 ≤ m4 ∧ m4 ≤ 3 ∧ 0 ≤ d4 ∧ d4 ≤ 365 ∧ (d4 = 365 → m4 = 3) ∧ (m4 < 3 → d4 < 365) := by
  have c4 : n4 = 0 ∨ n4 = 1 ∨ n4 = 2 ∨ n4 = 3 ∨ n4 = 4 := by omega
  rcases c4 with c4 | c4 | c4 | c4 | c4 <;> subst c4 <;> omega

theorem cut_centuries (d1 n2 m2 d2 : Int) (h0 : 0 ≤ d1) (h1 : d1 ≤ 146096)
    (h3 : n2 = d1 / 36524) (h4 : m2 = n2 - n2 / 4) (h5 : d2 = d1 - 36524 * m2) :
    0 ≤ m2 ∧ m2 ≤ 3 ∧ 0 ≤ d2 ∧ d2 ≤ 36524 ∧ (m2 < 3 → d2 < 36524) := by
  have c2 : n2 = 0 ∨ n2 = 1 ∨ n2 = 2 ∨ n2 = 3 ∨ n2 = 4 := by omega
  rcases c2 with c2 | c2 | c2 | c2 | c2 <;> subst c2 <;> omega

theorem cycle_arith (d n1 d1 n2 m2 d2 n3 d3 n4 m4 d4 y : Int)
    (h1 : n1 = d / 146097) (h2 : d1 = d - 146097 * n1) (h3 : n2 = d1 / 36524)
    (h4 : m2 = n2 - n2 / 4) (h5 : d2 = d1 - 36524 * m2) (h6 : n3 = d2 / 1461)
    (h7 : d3 = d2 - 1461 * n3) (h8 : n4 = d3 / 365) (h9 : m4 = n4 - n4 / 4)
    (h10 : d4 = d3 - 365 * m4) (hy : y = 400 * n1 + 100 * m2 + 4 * n3 + m4) :
    daysSinceEpoch (y + absoluteZeroYear) + d4 = d ∧ 0 ≤ d4 ∧
      (d4 < 365 ∨ (d4 = 365 ∧ isLeap (y + absoluteZeroYear) = true)) := by
  rw [isLeap_iff]
  simp only [daysSinceEpoch, absoluteZeroYear, daysPer400Years_eq, daysPer100Years_eq,
    daysPer4Years_eq]
  have hd1 : 0 ≤ d1 ∧ d1 ≤ 146096 := by omega
  obtain ⟨a1, a2, a3, a4, a5⟩ := cut_centuries d1 n2 m2 d2 hd1.1 hd1.2 h3 h4 h5
  have hn3 : 0 ≤ n3 ∧ n3 ≤ 24 ∧ 0 ≤ d3 ∧ d3 ≤ 1460 ∧ (d2 < 36524 → n3 < 24 ∨ d3 < 1460) := by
    omega
  obtain ⟨b1, b2, b3, b4, b5, b6⟩ := cut_years d3 n4 m4 d4 hn3.2.2.1 hn3.2.2.2.1 h8 h9 h10
  have e0 : y + -292277022399 - -292277022399 = y := by omega
  rw [e0]
  have e1 : y / 400 = n1 := by omega
  rw [e1]
  have e2 : (y - 400 * n1) / 100 = m2 := by omega
  rw [e2]
  have e3 : (y - 400 * n1 - 100 * m2) / 4 = n3 := by omega
  rw [e3]
  refine ⟨by omega, b3, ?_⟩
  by_cases h : d4 < 365
  · exact Or.inl h
  · right
    have h365 : d4 = 365 := by omega
    have hm4 := b5 h365
    refine ⟨h365, by omega, ?_⟩
    have hd3 : d3 = 1460 := by omega
    by_cases h24 : n3 < 24
    · left
      have hy2 : y + -292277022399 = 100 * (4 * n1 + m2 - 2922770224) + (4 * n3 + 4) := by
        omega
      rw [hy2]
      have hn0 := hn3.1
      clear hy2 hy e0 e1 e2 e3 h1 h2 h3 h4 h5 h6 h7 h8 h9 h10 hn3 a5 b5 b6
      omega
    · right
      have hn24 : n3 = 24 := by omega
      have hm2 : m2 = 3 := by
        by_contra hne
        have := a5 (by omega)
        omega
      have hy2 : y + -292277022399 = 400 * (n1 - 730692555) := by omega
      rw [hy2]
      exact Int.mul_emod_right 400 _

theorem absYearDay_spec (abs : Int) :
    daysSinceEpoch (absYearDay abs).1 + (absYearDay abs).2 = abs / secondsPerDay ∧
      0 ≤ (absYearDay abs).2 ∧
      ((absYearDay abs).2 < 365 ∨
        ((absYearDay abs).2 = 365 ∧ isLeap (absYearDay abs).1 = true)) := by
  simp only [absYearDay, daysPer400Years_eq, daysPer100Years_eq, daysPer4Years_eq,
    secondsPerDay_eq]
  exact cycle_arith _ _ _ _ _ _ _ _ _ _ _ _ rfl rfl rfl rfl rfl rfl rfl rfl rfl rfl rfl

theorem norm_of_inRange (hi lo base : Int) (h0 : 0 ≤ lo) (h1 : lo < base) :
    norm hi lo base = (hi, lo) := by
  simp [norm, not_lt.mpr h0, not_le.mpr h1]

theorem civilDays_absDate (abs k : Int) :
    civilDays (absDate abs).1 (absDate abs).2.1 ((absDate abs).2.2.1 + k) =
      abs / secondsPerDay + k := by
  obtain ⟨a1, a2, a3⟩ := absYearDay_spec abs
  obtain ⟨m1, m2, m3, m4, m5⟩ := monthDay_spec (absYearDay abs).1 (absYearDay abs).2 a2 a3
  simp only [civilDays, absDate]
  split_ifs at m5 ⊢ <;> omega

theorem Date_midnight (year month day : Int) (loc : Location) (h0 : 0 ≤ month - 1)
    (h1 : month - 1 < 12) :
    Date year month day 0 0 0 0 loc =
      ⟨zoneAdjust loc
        (civilDays year month day * secondsPerDay - (unixToInternal + internalToAbsolute)),
        0, loc⟩ := by
  have e1 : norm year (month - 1) 12 = (year, month - 1) := norm_of_inRange _ _ _ h0 h1
  have e2 : norm 0 0 1000000000 = (0, 0) := by decide
  have e3 : norm 0 0 60 = (0, 0) := by decide
  have e4 : norm day 0 24 = (day, 0) := norm_of_inRange _ _ _ (by omega) (by omega)
  simp only [Date, e1, e2, e3, e4, civilDays, sub_add_cancel, internalToAbsolute, internalToUnix]
  have : ∀ (a b : Int) (c : Location), a = b →
      (⟨zoneAdjust c a, 0, c⟩ : Time) = ⟨zoneAdjust c b, 0, c⟩ := by
    intro a b c h; rw [h]
  apply this
  simp only [ge_iff_le]
  ring

theorem Date_absDate (abs k : Int) (loc : Location) :
    Date (absDate abs).1 (absDate abs).2.1 ((absDate abs).2.2.1 + k) 0 0 0 0 loc =
      midnight (abs / secondsPerDay + k) loc := by
  obtain ⟨a1, a2, a3⟩ := absYearDay_spec abs
  obtain ⟨m1, m2, m3, m4, m5⟩ := monthDay_spec (absYearDay abs).1 (absYearDay abs).2 a2 a3
  rw [Date_midnight _ _ _ _ (by simpa [absDate] using m1) (by simpa [absDate] using m2),
    civilDays_absDate]
  rfl

theorem absDate_day_eq (a b : Int) (h1 : (absDate a).1 = (absDate b).1)
    (h2 : (absDate a).2.1 = (absDate b).2.1) (h3 : (absDate a).2.2.1 = (absDate b).2.2.1) :
    a / secondsPerDay = b / secondsPerDay := by
  have ha := civilDays_absDate a 0
  have hb := civilDays_absDate b 0
  rw [h1, h2, h3] at ha
  rw [ha] at hb
  omega

theorem abs_midnight (d : Int) (loc : Location) (h : loc.hasMidnight d) :
    (midnight d loc).abs = d * secondsPerDay := h

theorem absDay_midnight (d : Int) (loc : Location) (h : loc.hasMidnight d) :
    (midnight d loc).absDay = d := by
  simp only [Time.absDay, abs_midnight d loc h, secondsPerDay_eq]; omega

theorem lookup_fixed (loc : Location) (h : loc.tx = []) (sec : Int) :
    loc.lookup sec = (loc.offset, alpha, omega) := by
  simp only [Location.lookup, h, lookupFrom]

theorem zoneAdjust_fixed (loc : Location) (h : loc.tx = []) (unix : Int) :
    zoneAdjust loc unix = unix - loc.offset := by
  simp only [zoneAdjust, lookup_fixed loc h, ite_self]
  split_ifs with h0
  · rfl
  · have : loc.offset = 0 := by simpa using h0
    rw [this, sub_zero]

theorem abs_fixed (t : Time) (h : t.loc.tx = []) :
    t.abs = t.sec + t.loc.offset + (unixToInternal + internalToAbsolute) := by
  simp only [Time.abs, lookup_fixed t.loc h]

/-- In a fixed zone every calendar day begins with its midnight. -/
theorem hasMidnight_fixed (loc : Location) (h : loc.tx = []) (d : Int) : loc.hasMidnight d := by
  have hm : (midnight d loc).loc.tx = [] := h
  simp only [Location.hasMidnight, abs_fixed _ hm]
  simp only [midnight, zoneAdjust_fixed loc h]
  ring

/-- One instant has one clock reading in one location. -/
theorem abs_eq_of_Equal (m e : Time) (hloc : m.loc = e.loc) (h : m.Equal e = true) :
    m.abs = e.abs := by
  simp only [Time.Equal, Bool.and_eq_true, beq_iff_eq] at h
  simp only [Time.abs, hloc, h.1]

theorem loc_midnight (d : Int) (loc : Location) : (midnight d loc).loc = loc := rfl

theorem absDate_congr (a b : Int) (h : a / secondsPerDay = b / secondsPerDay) :
    absDate a = absDate b := by
  simp only [absDate, absYearDay, h]

theorem Date_self (t : Time) (k : Int) :
    Date t.Year t.Month (t.Day + k) 0 0 0 0 t.Location = midnight (t.absDay + k) t.loc := by
  simp only [Time.Year, Time.Month, Time.Day, Time.Location, Date_absDate, Time.absDay]

theorem Date_self0 (t : Time) :
    Date t.Year t.Month t.Day 0 0 0 0 t.Location = midnight t.absDay t.loc := by
  have := Date_self t 0
  simpa using this

theorem sameDate_iff (t u : Time) :
    (t.Date.1 == u.Date.1 && t.Date.2.1 == u.Date.2.1 && t.Date.2.2 == u.Date.2.2) = true ↔
      t.absDay = u.absDay := by
  simp only [Time.Date, Bool.and_eq_true, beq_iff_eq, Time.absDay]
  constructor
  · rintro ⟨⟨h1, h2⟩, h3⟩
    exact absDate_day_eq _ _ h1 h2 h3
  · intro h
    rw [absDate_congr _ _ h]
    exact ⟨⟨rfl, rfl⟩, rfl⟩

theorem absDay_of_Equal_midnight (d : Int) (e : Time) (loc : Location) (hloc : loc = e.loc)
    (hm : loc.hasMidnight d) (h : (midnight d loc).Equal e = true) : e.absDay = d := by
  have := abs_eq_of_Equal (midnight d loc) e hloc h
  rw [Time.absDay, ← this, ← Time.absDay, absDay_midnight d loc hm]

theorem absClock_range (abs : Int) :
    0 ≤ (absClock abs).1 ∧ (absClock abs).1 < 24 ∧ 0 ≤ (absClock abs).2.1 ∧
      (absClock abs).2.1 < 60 ∧ 0 ≤ (absClock abs).2.2 ∧ (absClock abs).2.2 < 60 := by
  simp only [absClock, secondsPerDay, secondsPerHour, secondsPerMinute]
  omega

theorem digitChar_zero : digitChar 0 = '0' := by decide

theorem decimalDigits_lt_hundred (n : Nat) (h : n < 100) :
    decimalDigits 19 n [] = if n ≥ 10 then [digitChar (n / 10), digitChar (n % 10)]
      else [digitChar n] := by
  by_cases h10 : n ≥ 10
  · have h2 : ¬ (n / 10 ≥ 10) := by omega
    have h3 : n - n / 10 * 10 = n % 10 := by omega
    simp only [decimalDigits, h10, if_true, h2, if_false, h3]
  · simp only [decimalDigits, h10, if_false]

theorem appendInt_two (b : Str) (x : Int) (h0 : 0 ≤ x) (h1 : x < 100) :
    appendInt b x 2 = b ++ [digitChar (x.toNat / 10), digitChar (x.toNat % 10)] := by
  have hn : x.natAbs = x.toNat := by omega
  have hlt : x.toNat < 100 := by omega
  simp only [appendInt, not_lt.mpr h0, if_false, hn, decimalDigits_lt_hundred _ hlt]
  by_cases h10 : x.toNat ≥ 10
  · simp [h10]
  · have e1 : x.toNat / 10 = 0 := by omega
    have e2 : x.toNat % 10 = x.toNat := by omega
    simp [h10, e1, e2, digitChar_zero]

end time

namespace strings

/-! ## The pieces of `strings.Split` -/

theorem Split_ne_nil (s : Str) (sep : Char) : Split s sep ≠ [] := by
  induction s with
  | nil => simp [Split]
  | cons c cs ih =>
    simp only [Split]
    split_ifs
    · simp
    · cases h : Split cs sep with
      | nil => exact absurd h ih
      | cons p ps => simp

theorem Split_intercalate (s : Str) (sep : Char) : [sep].intercalate (Split s sep) = s := by
  induction s with
  | nil => simp [Split, List.intercalate]
  | cons c cs ih =>
    simp only [Split]
    split_ifs with hc
    · subst hc
      cases h : Split cs c with
      | nil => exact absurd h (Split_ne_nil cs c)
      | cons p ps =>
        rw [h] at ih
        simp only [List.intercalate, List.intersperse, List.flatten_cons] at ih ⊢
        simp [ih]
    · cases h : Split cs sep with
      | nil => exact absurd h (Split_ne_nil cs sep)
      | cons p ps =>
        rw [h] at ih
        cases ps with
        | nil =>
          simp only [List.intercalate, List.intersperse, List.flatten_cons, List.flatten_nil,
            List.append_nil] at ih ⊢
          rw [ih]
        | cons q qs =>
          simp only [List.intercalate, List.intersperse, List.flatten_cons] at ih ⊢
          simp [← ih]

theorem Split_no_sep (s : Str) (sep : Char) : ∀ piece ∈ Split s sep, sep ∉ piece := by
  induction s with
  | nil => simp [Split]
  | cons c cs ih =>
    simp only [Split]
    split_ifs with hc
    · intro piece hp
      simp only [List.mem_cons] at hp
      rcases hp with hp | hp
      · subst hp; simp
      · exact ih piece hp
    · cases h : Split cs sep with
      | nil => exact absurd h (Split_ne_nil cs sep)
      | cons p ps =>
        rw [h] at ih
        intro piece hp
        simp only [List.mem_cons] at hp
        rcases hp with hp | hp
        · subst hp
          have := ih p (by simp)
          simp only [List.mem_cons, not_or]
          exact ⟨fun hh => hc hh.symm, this⟩
        · exact ih piece (by simp [hp])

end strings

namespace gcal2diary

open time

/-! ## The first loop of `Write` -/

theorem formatTime_eq_clockLabel (t : Time) : formatTime t = clockLabel t := by
  obtain ⟨h1, h2, h3, h4, -, -⟩ := absClock_range t.abs
  have e : formatTime t =
      appendInt (appendInt [] (absClock t.abs).1 2 ++ [':']) (absClock t.abs).2.1 2 := rfl
  rw [e, appendInt_two _ _ h1 (by omega), appendInt_two _ _ h3 (by omega)]
  simp [clockLabel, Time.Hour, Time.Minute]

theorem formatTime_midnight (d : Int) (loc : Location) (h : loc.hasMidnight d) :
    formatTime (midnight d loc) = "00:00".toList := by
  rw [formatTime_eq_clockLabel]
  have e : absClock (midnight d loc).abs = (0, 0, 0) := by
    rw [abs_midnight d loc h]
    simp only [absClock, secondsPerDay, secondsPerHour, secondsPerMinute]
    have : d * (24 * (60 * 60)) % (24 * (60 * 60)) = 0 := by omega
    rw [this]
    rfl
  simp only [clockLabel, Time.Hour, Time.Minute, e]
  decide

theorem splitLoop_succ (fuel : Nat) (b e : Time) (acc : List timeRange) :
    splitLoop (fuel + 1) b e acc =
      if b.absDay = e.absDay then
        some (acc ++ [⟨midnight b.absDay b.loc, formatTime b, formatTime e⟩])
      else if (midnight (b.absDay + 1) b.loc).Equal e = true then
        some (acc ++ [⟨midnight b.absDay b.loc, formatTime b, "24:00".toList⟩])
      else
        splitLoop fuel (midnight (b.absDay + 1) b.loc) e
          (acc ++ [⟨midnight b.absDay b.loc, formatTime b, "24:00".toList⟩]) := by
  simp only [splitLoop, Date_self0, Date_self, sameDate_iff]

theorem rangeAt_succ (b e : Time) (i : Nat) (h : b.loc.hasMidnight (b.absDay + 1)) :
    rangeAt b e (i + 1) = rangeAt (midnight (b.absDay + 1) b.loc) e i := by
  simp only [rangeAt, absDay_midnight _ _ h, loc_midnight, formatTime_midnight _ _ h,
    Nat.succ_ne_zero, if_false, ite_self, Nat.cast_add, Nat.cast_one]
  have e1 : b.absDay + (↑i + 1) = b.absDay + 1 + ↑i := by ring
  rw [e1]

theorem expectedRanges_same (b e : Time) (h : b.absDay = e.absDay) :
    expectedRanges b e = [⟨midnight b.absDay b.loc, formatTime b, formatTime e⟩] := by
  simp [expectedRanges, rangeCount, h, rangeAt, List.range_succ]

theorem expectedRanges_stop (b e : Time) (h : b.absDay + 1 = e.absDay) (hm : e.beginsDay) :
    expectedRanges b e = [⟨midnight b.absDay b.loc, formatTime b, "24:00".toList⟩] := by
  have hne : b.absDay ≠ e.absDay := by omega
  have h1 : (e.absDay - b.absDay).toNat = 1 := by omega
  simp [expectedRanges, rangeCount, hne, hm, h1, rangeAt, List.range_succ]

theorem rangeCount_pos (b e : Time) (h : b.absDay ≤ e.absDay) : 1 ≤ rangeCount b e := by
  simp only [rangeCount]
  split_ifs <;> omega

theorem rangeCount_step (b e : Time) (h : b.absDay < e.absDay)
    (hmid : b.loc.hasMidnight (b.absDay + 1))
    (hm : ¬ (b.absDay + 1 = e.absDay ∧ e.beginsDay)) :
    rangeCount b e = rangeCount (midnight (b.absDay + 1) b.loc) e + 1 := by
  have hne : b.absDay ≠ e.absDay := by omega
  simp only [rangeCount, hne, if_false, absDay_midnight _ _ hmid]
  by_cases h1 : b.absDay + 1 = e.absDay
  · have hnm : ¬ e.beginsDay := fun hh => hm ⟨h1, hh⟩
    have h2 : (e.absDay - b.absDay).toNat = 1 := by omega
    simp [h1, hnm, h2]
  · have h2 : (e.absDay - b.absDay).toNat = (e.absDay - (b.absDay + 1)).toNat + 1 := by omega
    simp only [h1, if_false, h2]
    omega

theorem expectedRanges_step (b e : Time) (h : b.absDay < e.absDay)
    (hmid : b.loc.hasMidnight (b.absDay + 1))
    (hm : ¬ (b.absDay + 1 = e.absDay ∧ e.beginsDay)) :
    expectedRanges b e = ⟨midnight b.absDay b.loc, formatTime b, "24:00".toList⟩ ::
      expectedRanges (midnight (b.absDay + 1) b.loc) e := by
  have hne : b.absDay ≠ e.absDay := by omega
  simp only [expectedRanges, rangeCount_step b e h hmid hm, List.range_succ_eq_map,
    List.map_cons, List.map_map]
  congr 1
  · simp [rangeAt, hne]
  · apply List.map_congr_left
    intro i _
    exact rangeAt_succ b e i hmid

/-- The first loop of `Write`, started at `b` with `acc` collected: when `b` and `e` are in
one location, the day of `b` is not after the day of `e`, and every later day up to the day
of `e` begins with a midnight that `time.Date` finds, the loop leaves within
`rangeCount b e` iterations and has appended the time ranges of the closed form. -/
theorem splitLoop_eq (n : Nat) : ∀ (b e : Time) (acc : List timeRange) (fuel : Nat),
    b.loc = e.loc → b.absDay ≤ e.absDay →
    (∀ d : Int, b.absDay < d → d ≤ e.absDay → b.loc.hasMidnight d) →
    (e.absDay - b.absDay).toNat = n →
    rangeCount b e ≤ fuel → splitLoop fuel b e acc = some (acc ++ expectedRanges b e) := by
  induction n with
  | zero =>
    intro b e acc fuel _ hle _ hn hf
    have hpos := rangeCount_pos b e hle
    obtain ⟨f, rfl⟩ : ∃ f, fuel = f + 1 := ⟨fuel - 1, by omega⟩
    have hd : b.absDay = e.absDay := by omega
    rw [splitLoop_succ, if_pos hd, expectedRanges_same b e hd]
  | succ n ih =>
    intro b e acc fuel hloc hle hmids hn hf
    have hpos := rangeCount_pos b e hle
    obtain ⟨f, rfl⟩ : ∃ f, fuel = f + 1 := ⟨fuel - 1, by omega⟩
    have hd : b.absDay ≠ e.absDay := by omega
    have hmid : b.loc.hasMidnight (b.absDay + 1) := hmids _ (by omega) (by omega)
    rw [splitLoop_succ, if_neg hd]
    by_cases hs : (midnight (b.absDay + 1) b.loc).Equal e = true
    · rw [if_pos hs]
      have h1 : e.absDay = b.absDay + 1 := absDay_of_Equal_midnight _ e b.loc hloc hmid hs
      have h2 : e.beginsDay := by
        simp only [Time.beginsDay, h1, ← hloc]
        exact hs
      rw [expectedRanges_stop b e h1.symm h2]
    · rw [if_neg hs]
      have hm : ¬ (b.absDay + 1 = e.absDay ∧ e.beginsDay) := by
        intro ⟨h1, h2⟩
        apply hs
        simp only [Time.beginsDay, ← h1, ← hloc] at h2
        exact h2
      have hc := rangeCount_step b e (by omega) hmid hm
      rw [ih (midnight (b.absDay + 1) b.loc) e _ f (by simpa [loc_midnight] using hloc)
        (by rw [absDay_midnight _ _ hmid]; omega)
        (by
          intro d h1 h2
          rw [absDay_midnight _ _ hmid] at h1
          rw [loc_midnight]
          exact hmids d (by omega) h2)
        (by rw [absDay_midnight _ _ hmid]; omega) (by omega),
        expectedRanges_step b e (by omega) hmid hm]
      simp

theorem regularSpan_midnight (s e : Time) (h : regularSpan s e) (d : Int) (h1 : s.absDay ≤ d)
    (h2 : d ≤ e.absDay) : s.loc.hasMidnight d := by
  have h3 := h.2.2 (d - s.absDay).toNat (by omega)
  have e1 : s.absDay + ((d - s.absDay).toNat : Int) = d := by omega
  rwa [e1] at h3

/-- Instants of one location without transitions that are in order are on calendar days in
order. -/
theorem absDay_le_of_le (s e : Time) (htx : s.loc.tx = []) (hloc : s.loc = e.loc)
    (hle : s.le e) : s.absDay ≤ e.absDay := by
  have h : s.sec ≤ e.sec := by
    simp only [Time.le, Time.After, Bool.or_eq_false_iff, decide_eq_false_iff_not] at hle
    omega
  have hte : e.loc.tx = [] := by rw [← hloc]; exact htx
  simp only [Time.absDay, abs_fixed s htx, abs_fixed e hte, hloc, secondsPerDay_eq]
  omega

/-- Two times of one location without transitions, in order, make a regular span. -/
theorem regularSpan_of_fixed (s e : Time) (htx : s.loc.tx = []) (hloc : s.loc = e.loc)
    (hle : s.le e) : regularSpan s e :=
  ⟨hloc, absDay_le_of_le s e htx hloc hle, fun _ _ => hasMidnight_fixed s.loc htx _⟩

theorem splitLoop_expected (s e : Time) (fuel : Nat) (h : regularSpan s e)
    (hfuel : rangeCount s e ≤ fuel) :
    splitLoop fuel s e [] = some (expectedRanges s e) := by
  have := splitLoop_eq _ s e [] fuel h.1 h.2.1
    (fun d h1 h2 => regularSpan_midnight s e h d (by omega) h2) rfl hfuel
  simpa using this

/-- A cursor that `time.Date` sends back to itself: when the midnight after the day of `c` is
the time `c` again, on a day other than that of `e` and at another instant than `e`, the
first loop of `Write` never leaves, whatever the number of iterations allowed. -/
theorem splitLoop_stuck (c e : Time) (hd : c.absDay ≠ e.absDay)
    (hc : midnight (c.absDay + 1) c.loc = c) (he : c.Equal e = false) :
    ∀ (fuel : Nat) (acc : List timeRange), splitLoop fuel c e acc = none := by
  intro fuel
  induction fuel with
  | zero => intro acc; rfl
  | succ f ih =>
    intro acc
    rw [splitLoop_succ, if_neg hd, hc, he]
    simp only [Bool.false_eq_true, if_false]
    exact ih _

theorem formatDate_recognised (dateStyle : DateStyle) (t : Time) (h : recognised dateStyle) :
    formatDate dateStyle t = .ok (dateText dateStyle t) := by
  rcases h with h | h | h <;> subst h <;> rfl

theorem renderLoop_eq (dateStyle : DateStyle) (event : Event) (h : recognised dateStyle) :
    ∀ (rs : List timeRange) (s : Str),
      renderLoop dateStyle event rs s = .ok (s ++ blocksText dateStyle event rs) := by
  intro rs
  induction rs with
  | nil => intro s; simp [renderLoop, blocksText]
  | cons r rest ih =>
    intro s
    simp only [renderLoop, formatDate_recognised dateStyle r.date h, ih]
    by_cases hl : event.Location = [] <;> by_cases hd : event.Description = [] <;>
      simp [blocksText, blockText, hl, hd]

theorem Write_eq {σ : Type} (parse : Str → Except Str Time) (w : DiaryWriter σ) (fuel : Nat)
    (event : Event) (sink : σ) (start end_ : Time)
    (hs : parse event.Start.DateTime = .ok start) (he : parse event.End.DateTime = .ok end_)
    (hst : recognised w.dateStyle) :
    Write parse w fuel event sink =
      (splitLoop fuel start end_ []).map
        (fun rs => .returned none (w.w.Write sink (blocksText w.dateStyle event rs)).1) := by
  simp only [Write, hs, he]
  cases splitLoop fuel start end_ [] with
  | none => rfl
  | some rs => simp [renderLoop_eq _ _ hst]

theorem sameDay_of_Date_eq (t u : Time) (h : t.Date = u.Date) : t.absDay = u.absDay := by
  apply (sameDate_iff t u).mp
  rw [h]
  simp

theorem Date_ne_of_absDay_ne (t u : Time) (h : t.absDay ≠ u.absDay) : t.Date ≠ u.Date :=
  fun hd => h (sameDay_of_Date_eq t u hd)

theorem getElem?_expectedRanges (b e : Time) (i : Nat) (r : timeRange)
    (h : (expectedRanges b e)[i]? = some r) : i < rangeCount b e ∧ r = rangeAt b e i := by
  simp only [expectedRanges, List.getElem?_map, Option.map_eq_some', List.getElem?_range] at h
  obtain ⟨a, ha, hr⟩ := h
  rw [List.getElem?_eq_some_iff] at ha
  obtain ⟨hlt, hget⟩ := ha
  simp only [List.length_range] at hlt
  simp only [List.getElem_range] at hget
  subst hget
  exact ⟨hlt, hr.symm⟩

theorem getLast?_expectedRanges (b e : Time) (h : 1 ≤ rangeCount b e) :
    (expectedRanges b e).getLast? = some (rangeAt b e (rangeCount b e - 1)) := by
  obtain ⟨n, hn⟩ : ∃ n, rangeCount b e = n + 1 := ⟨rangeCount b e - 1, by omega⟩
  simp [expectedRanges, hn, List.range_succ]

theorem head?_expectedRanges (b e : Time) (h : 1 ≤ rangeCount b e) :
    (expectedRanges b e).head? = some (rangeAt b e 0) := by
  obtain ⟨n, hn⟩ : ∃ n, rangeCount b e = n + 1 := ⟨rangeCount b e - 1, by omega⟩
  simp [expectedRanges, hn, List.range_succ_eq_map]


theorem Write_none {σ : Type} (parse : Str → Except Str Time) (w : DiaryWriter σ) (fuel : Nat)
    (event : Event) (sink : σ) (start end_ : Time)
    (hs : parse event.Start.DateTime = .ok start) (he : parse event.End.DateTime = .ok end_)
    (h : splitLoop fuel start end_ [] = none) : Write parse w fuel event sink = none := by
  simp only [Write, hs, he, h]

/-- The defect of the first loop of `Write`: when `time.Date` resolves 00:00 of the day after
the day of `s` to a time that is still on the day of `s` (the hour after midnight is skipped
by a change to daylight saving time in a zone west of Greenwich), and that time is not the
instant `e`, and the day of `s` is not the day of `e`, then the cursor stays where it is and
the loop never leaves. -/
theorem splitLoop_skipped (s e : Time) (hd : s.absDay ≠ e.absDay)
    (hskip : (midnight (s.absDay + 1) s.loc).absDay = s.absDay)
    (he : (midnight (s.absDay + 1) s.loc).Equal e = false) :
    ∀ (fuel : Nat) (acc : List timeRange), splitLoop fuel s e acc = none := by
  intro fuel acc
  cases fuel with
  | zero => rfl
  | succ f =>
    rw [splitLoop_succ, if_neg hd, he]
    simp only [Bool.false_eq_true, if_false]
    apply splitLoop_stuck
    · rw [hskip]; exact hd
    · rw [hskip, loc_midnight]
    · exact he

/-- C1 fails on the code on a day without midnight. With `time.Local` the zone
America/Santiago, take the event from 10:00 to 11:00 of 2024-09-08 (both written with
`-03:00`), the day on which the clock went from 24:00 straight to 01:00. Both timestamps
parse into `Local`, both are on 2024-09-08 and in order; the first loop of `Write` collects
the one time range 10:00-11:00; but `time.Date` for 00:00 of 2024-09-08 gives 23:00 of
2024-09-07, so the time range is dated 2024-09-07 and `Write` sends
`2024/09/07 10:00-11:00 Standup`. -/
theorem C1_same_day_misdated :
    ParseRFC3339In santiago "2024-09-08T10:00:00-03:00".toList =
        .ok ⟨1725800400, 0, santiago⟩ ∧
      ParseRFC3339In santiago "2024-09-08T11:00:00-03:00".toList =
        .ok ⟨1725804000, 0, santiago⟩ ∧
      (⟨1725800400, 0, santiago⟩ : Time).Date = (2024, 9, 8) ∧
      (⟨1725804000, 0, santiago⟩ : Time).Date = (2024, 9, 8) ∧
      (⟨1725800400, 0, santiago⟩ : Time).le ⟨1725804000, 0, santiago⟩ ∧
      Date 2024 9 8 0 0 0 0 santiago = ⟨1725764400, 0, santiago⟩ ∧
      (⟨1725764400, 0, santiago⟩ : Time).Date = (2024, 9, 7) ∧
      formatTime ⟨1725764400, 0, santiago⟩ = "23:00".toList ∧
      splitLoop 1 ⟨1725800400, 0, santiago⟩ ⟨1725804000, 0, santiago⟩ [] =
        some [⟨⟨1725764400, 0, santiago⟩, "10:00".toList, "11:00".toList⟩] ∧
      Write (ParseRFC3339In santiago) (NewDiaryWriter bufferSink DateStyleISO) 1
          (exampleEvent "2024-09-08T10:00:00-03:00" "2024-09-08T11:00:00-03:00" "") [] =
        some (.returned none "2024/09/07 10:00-11:00 Standup\n".toList) :=
  ⟨rfl, rfl, rfl, rfl, by decide, rfl, rfl, rfl, rfl, rfl⟩

/-- C2 fails on the code where a day of the event has no midnight. With `time.Local` the zone
Africa/Cairo, take the event from 2024-04-25 22:00 to 2024-04-27 06:30, which touches three
calendar days; on 2024-04-26 the clock went from 24:00 straight to 01:00. `time.Date` for
00:00 of 2024-04-26 gives 01:00 of that day, so the first loop of `Write` collects three time
ranges of which the middle one has the start label `01:00`, not `00:00`, and `Write` sends
`2024/04/26 01:00-24:00 Standup` as its second block. This is so with the end written with
`+03:00` (both times in `Local`) and with the end written with `+02:00`, as the start is. -/
theorem C2_middle_entry_not_from_midnight :
    ParseRFC3339In cairo "2024-04-25T22:00:00+02:00".toList = .ok ⟨1714075200, 0, cairo⟩ ∧
      ParseRFC3339In cairo "2024-04-27T06:30:00+03:00".toList = .ok ⟨1714188600, 0, cairo⟩ ∧
      (⟨1714075200, 0, cairo⟩ : Time).le ⟨1714188600, 0, cairo⟩ ∧
      daysTouched ⟨1714075200, 0, cairo⟩ ⟨1714188600, 0, cairo⟩ = 3 ∧
      Date 2024 4 26 0 0 0 0 cairo = ⟨1714082400, 0, cairo⟩ ∧
      (⟨1714082400, 0, cairo⟩ : Time).Date = (2024, 4, 26) ∧
      splitLoop 3 ⟨1714075200, 0, cairo⟩ ⟨1714188600, 0, cairo⟩ [] =
        some [⟨⟨1713996000, 0, cairo⟩, "22:00".toList, "24:00".toList⟩,
              ⟨⟨1714082400, 0, cairo⟩, "01:00".toList, "24:00".toList⟩,
              ⟨⟨1714165200, 0, cairo⟩, "00:00".toList, "06:30".toList⟩] ∧
      Write (ParseRFC3339In cairo) (NewDiaryWriter bufferSink DateStyleISO) 3
          (exampleEvent "2024-04-25T22:00:00+02:00" "2024-04-27T06:30:00+03:00" "") [] =
        some (.returned none
          ("2024/04/25 22:00-24:00 Standup\n" ++ "2024/04/26 01:00-24:00 Standup\n" ++
            "2024/04/27 00:00-06:30 Standup\n").toList) ∧
      ParseRFC3339In cairo "2024-04-27T06:30:00+02:00".toList =
        .ok ⟨1714192200, 0, ⟨7200, []⟩⟩ ∧
      Write (ParseRFC3339In cairo) (NewDiaryWriter bufferSink DateStyleISO) 3
          (exampleEvent "2024-04-25T22:00:00+02:00" "2024-04-27T06:30:00+02:00" "") [] =
        some (.returned none
          ("2024/04/25 22:00-24:00 Standup\n" ++ "2024/04/26 01:00-24:00 Standup\n" ++
            "2024/04/27 00:00-06:30 Standup\n").toList) :=
  ⟨rfl, rfl, by decide, by decide, rfl, rfl, rfl, rfl, rfl, rfl⟩

/-- C3 fails on the code where a day of the event has no midnight. With `time.Local` the zone
America/Santiago, take the start 2024-09-07 22:00 and the end 2025-04-10 00:00 (both written
with `-04:00`, both in `Local`): `end` is exactly midnight of a later day, and yet the first
loop of `Write` never leaves, whatever the number of iterations allowed, so there is no last
time range and `Write` never returns. And for the start 2024-09-08 22:00 with the end
2024-09-09 00:00, the midnight right after, the one time range is dated 2024-09-07, which is
not the day of `start`. -/
theorem C3_end_at_midnight_never_reached :
    ParseRFC3339In santiago "2024-09-07T22:00:00-04:00".toList =
        .ok ⟨1725760800, 0, santiago⟩ ∧
      ParseRFC3339In santiago "2025-04-10T00:00:00-04:00".toList =
        .ok ⟨1744257600, 0, santiago⟩ ∧
      (⟨1744257600, 0, santiago⟩ : Time).isMidnight ∧
      (⟨1725760800, 0, santiago⟩ : Time).Date = (2024, 9, 7) ∧
      (⟨1744257600, 0, santiago⟩ : Time).Date = (2025, 4, 10) ∧
      (⟨1725760800, 0, santiago⟩ : Time).le ⟨1744257600, 0, santiago⟩ ∧
      (∀ (fuel : Nat) (acc : List timeRange),
        splitLoop fuel ⟨1725760800, 0, santiago⟩ ⟨1744257600, 0, santiago⟩ acc = none) ∧
      (∀ fuel : Nat,
        Write (ParseRFC3339In santiago) (NewDiaryWriter bufferSink DateStyleISO) fuel
          (exampleEvent "2024-09-07T22:00:00-04:00" "2025-04-10T00:00:00-04:00" "") [] =
          none) ∧
      ParseRFC3339In santiago "2024-09-08T22:00:00-03:00".toList =
        .ok ⟨1725843600, 0, santiago⟩ ∧
      ParseRFC3339In santiago "2024-09-09T00:00:00-03:00".toList =
        .ok ⟨1725850800, 0, santiago⟩ ∧
      (⟨1725843600, 0, santiago⟩ : Time).Date = (2024, 9, 8) ∧
      (⟨1725850800, 0, santiago⟩ : Time).isMidnight ∧
      Write (ParseRFC3339In santiago) (NewDiaryWriter bufferSink DateStyleISO) 1
          (exampleEvent "2024-09-08T22:00:00-03:00" "2024-09-09T00:00:00-03:00" "") [] =
        some (.returned none "2024/09/07 22:00-24:00 Standup\n".toList) :=
  ⟨rfl, rfl, by decide, rfl, rfl, by decide,
    splitLoop_skipped _ _ (by decide) (by decide) (by decide),
    fun fuel => Write_none _ _ fuel _ _ ⟨1725760800, 0, santiago⟩ ⟨1744257600, 0, santiago⟩
      rfl rfl (splitLoop_skipped _ _ (by decide) (by decide) (by decide) fuel []),
    rfl, rfl, rfl, by decide, rfl⟩

/-- C4 fails on the code where a day of the event has no midnight. With `time.Local` the zone
America/Santiago, take the start 2024-09-07 22:00 and the end 2025-04-10 10:00 (both written
with `-04:00`, both in `Local`, in order). `time.Date` for 00:00 of 2024-09-08 gives 23:00 of
2024-09-07, and from this time the same again: the cursor never gets past 2024-09-07, no
number of iterations allowed makes the first loop of `Write` leave, and `Write` never
returns. -/
theorem C4_loop_never_leaves_skipped_midnight :
    ParseRFC3339In santiago "2024-09-07T22:00:00-04:00".toList =
        .ok ⟨1725760800, 0, santiago⟩ ∧
      ParseRFC3339In santiago "2025-04-10T10:00:00-04:00".toList =
        .ok ⟨1744293600, 0, santiago⟩ ∧
      (⟨1725760800, 0, santiago⟩ : Time).le ⟨1744293600, 0, santiago⟩ ∧
      Date (⟨1725760800, 0, santiago⟩ : Time).Year (⟨1725760800, 0, santiago⟩ : Time).Month
          ((⟨1725760800, 0, santiago⟩ : Time).Day + 1) 0 0 0 0 santiago =
        ⟨1725764400, 0, santiago⟩ ∧
      Date (⟨1725764400, 0, santiago⟩ : Time).Year (⟨1725764400, 0, santiago⟩ : Time).Month
          ((⟨1725764400, 0, santiago⟩ : Time).Day + 1) 0 0 0 0 santiago =
        ⟨1725764400, 0, santiago⟩ ∧
      (⟨1725764400, 0, santiago⟩ : Time).Date = (2024, 9, 7) ∧
      (∀ fuel : Nat,
        splitLoop fuel ⟨1725760800, 0, santiago⟩ ⟨1744293600, 0, santiago⟩ [] = none) ∧
      (∀ fuel : Nat,
        Write (ParseRFC3339In santiago) (NewDiaryWriter bufferSink DateStyleISO) fuel
          (exampleEvent "2024-09-07T22:00:00-04:00" "2025-04-10T10:00:00-04:00" "") [] =
          none) :=
  ⟨rfl, rfl, by decide, rfl, rfl, rfl,
    fun fuel => splitLoop_skipped _ _ (by decide) (by decide) (by decide) fuel [],
    fun fuel => Write_none _ _ fuel _ _ ⟨1725760800, 0, santiago⟩ ⟨1744293600, 0, santiago⟩
      rfl rfl (splitLoop_skipped _ _ (by decide) (by decide) (by decide) fuel [])⟩


theorem digitValue_digitChar (k : Nat) (h : k < 10) : digitValue (digitChar k) = some (k : Int) := by
  interval_cases k <;> rfl

theorem labelSeconds_clockLabel (t : Time) :
    labelSeconds (clockLabel t) = some (t.Hour * secondsPerHour + t.Minute * secondsPerMinute) := by
  obtain ⟨h1, h2, h3, h4, -, -⟩ := absClock_range t.abs
  have a1 : t.Hour.toNat / 10 < 10 := by simp only [Time.Hour]; omega
  have a2 : t.Hour.toNat % 10 < 10 := by omega
  have a3 : t.Minute.toNat / 10 < 10 := by simp only [Time.Minute]; omega
  have a4 : t.Minute.toNat % 10 < 10 := by omega
  simp only [clockLabel, labelSeconds, digitValue_digitChar _ a1, digitValue_digitChar _ a2,
    digitValue_digitChar _ a3, digitValue_digitChar _ a4]
  have e1 : ((t.Hour.toNat / 10 : Nat) : Int) * 10 + ((t.Hour.toNat % 10 : Nat) : Int) = t.Hour := by
    simp only [Time.Hour]; omega
  have e2 : ((t.Minute.toNat / 10 : Nat) : Int) * 10 + ((t.Minute.toNat % 10 : Nat) : Int)
      = t.Minute := by
    simp only [Time.Minute]; omega
  rw [e1, e2]

theorem clock_seconds (t : Time) :
    t.absDay * secondsPerDay + (t.Hour * secondsPerHour + t.Minute * secondsPerMinute) =
      minuteStart t := by
  simp only [Time.absDay, Time.Hour, Time.Minute, absClock, minuteStart,
    secondsPerDay, secondsPerHour, secondsPerMinute]
  omega

theorem spanStart_rangeAt_zero (s e : Time) (hm : s.loc.hasMidnight s.absDay) :
    spanStart (rangeAt s e 0) = some (minuteStart s) := by
  simp only [spanStart, rangeAt, if_true, formatTime_eq_clockLabel, labelSeconds_clockLabel,
    Option.map_some', Nat.cast_zero, add_zero, absDay_midnight _ _ hm, clock_seconds]

theorem spanStart_rangeAt_succ (s e : Time) (i : Nat)
    (hm : s.loc.hasMidnight (s.absDay + i + 1)) :
    spanStart (rangeAt s e (i + 1)) = some ((s.absDay + i + 1) * secondsPerDay) := by
  have e0 : labelSeconds "00:00".toList = some 0 := by rfl
  have e1 : s.absDay + ((i + 1 : Nat) : Int) = s.absDay + i + 1 := by omega
  simp only [spanStart, rangeAt, Nat.succ_ne_zero, if_false, e0, Option.map_some', e1,
    add_zero, absDay_midnight _ _ hm]

theorem spanEnd_rangeAt_ne (s e : Time) (i : Nat) (h : s.absDay + i ≠ e.absDay)
    (hm : s.loc.hasMidnight (s.absDay + i)) :
    spanEnd (rangeAt s e i) = some ((s.absDay + i + 1) * secondsPerDay) := by
  have e0 : labelSeconds "24:00".toList = some 86400 := by rfl
  simp only [spanEnd, rangeAt, h, if_false, e0, Option.map_some', absDay_midnight _ _ hm,
    secondsPerDay_eq]
  congr 1
  ring

theorem spanEnd_rangeAt_eq (s e : Time) (i : Nat) (h : s.absDay + i = e.absDay)
    (hm : s.loc.hasMidnight (s.absDay + i)) :
    spanEnd (rangeAt s e i) = some (minuteStart e) := by
  rw [h] at hm
  simp only [spanEnd, rangeAt, h, if_true, formatTime_eq_clockLabel, labelSeconds_clockLabel,
    Option.map_some', absDay_midnight _ _ hm, clock_seconds]

/-- A time with which its day begins reads 00:00:00.0 on the clock, when the day has a
midnight. -/
theorem abs_of_beginsDay (e : Time) (hb : e.beginsDay) (hm : e.loc.hasMidnight e.absDay) :
    e.abs = e.absDay * secondsPerDay ∧ e.isMidnight := by
  have h1 := abs_eq_of_Equal (midnight e.absDay e.loc) e rfl hb
  rw [abs_midnight _ _ hm] at h1
  refine ⟨h1.symm, ?_, ?_⟩
  · rw [← h1, secondsPerDay_eq]; omega
  · simp only [Time.beginsDay, Time.Equal, midnight, Bool.and_eq_true, beq_iff_eq] at hb
    exact hb.2.symm

theorem minuteStart_beginsDay (e : Time) (hb : e.beginsDay)
    (hm : e.loc.hasMidnight e.absDay) : e.absDay * secondsPerDay = minuteStart e := by
  have h1 := (abs_of_beginsDay e hb hm).1
  simp only [minuteStart, secondsPerDay_eq, secondsPerMinute] at h1 ⊢
  omega

theorem rangeCount_bounds (s e : Time) (h : s.absDay ≤ e.absDay) :
    (e.absDay - s.absDay).toNat ≤ rangeCount s e ∧
      rangeCount s e ≤ (e.absDay - s.absDay).toNat + 1 ∧
      (rangeCount s e = (e.absDay - s.absDay).toNat ↔ (s.absDay < e.absDay ∧ e.beginsDay)) := by
  simp only [rangeCount]
  split_ifs with h1 h2
  · exact ⟨by omega, by omega, by constructor <;> intro hh <;> omega⟩
  · exact ⟨by omega, by omega, by
      constructor
      · intro _; exact ⟨by omega, h2⟩
      · intro _; omega⟩
  · exact ⟨by omega, by omega, by
      constructor
      · intro hh; omega
      · intro hh; exact absurd hh.2 h2⟩

/-- C5 as stated fails at a start that is not on a whole minute: for the event from
10:00:30 to 10:00:45 of 2024-05-01 (UTC) the one span reads 10:00-10:00, so it begins at
10:00:00 and not at `start`, it ends at 10:00:00 and not at `end`, and it is empty, while
`end` is 15 seconds after `start`. -/
theorem C5_counterexample :
    ParseRFC3339 "2024-05-01T10:00:30Z".toList = .ok ⟨1714557630, 0, ⟨0, []⟩⟩ ∧
      ParseRFC3339 "2024-05-01T10:00:45Z".toList = .ok ⟨1714557645, 0, ⟨0, []⟩⟩ ∧
      (⟨1714557630, 0, ⟨0, []⟩⟩ : Time).le ⟨1714557645, 0, ⟨0, []⟩⟩ ∧
      splitLoop 1 ⟨1714557630, 0, ⟨0, []⟩⟩ ⟨1714557645, 0, ⟨0, []⟩⟩ [] =
        some [⟨⟨1714521600, 0, ⟨0, []⟩⟩, "10:00".toList, "10:00".toList⟩] ∧
      spanStart ⟨⟨1714521600, 0, ⟨0, []⟩⟩, "10:00".toList, "10:00".toList⟩ =
        some (⟨1714557600, 0, ⟨0, []⟩⟩ : Time).abs ∧
      spanEnd ⟨⟨1714521600, 0, ⟨0, []⟩⟩, "10:00".toList, "10:00".toList⟩ =
        some (⟨1714557600, 0, ⟨0, []⟩⟩ : Time).abs ∧
      spanStart ⟨⟨1714521600, 0, ⟨0, []⟩⟩, "10:00".toList, "10:00".toList⟩ ≠
        some (⟨1714557630, 0, ⟨0, []⟩⟩ : Time).abs ∧
      spanEnd ⟨⟨1714521600, 0, ⟨0, []⟩⟩, "10:00".toList, "10:00".toList⟩ ≠
        some (⟨1714557645, 0, ⟨0, []⟩⟩ : Time).abs :=
  ⟨rfl, rfl, by decide, rfl, rfl, rfl, by decide, by decide⟩

/-- C5, amended. Take two times of one location, the day of `start` not after the day of
`end` (as `start <= end` gives in a zone without transitions), every day from the day of
`start` to the day of `end` beginning with a midnight that `time.Date` finds. Read each time
range as the span from its start label to its end label on its day, on the clock of the
location, `24:00` being the following midnight. Then the first loop of `Write` leaves, the
first span begins where the clock minute of `start` begins, each span ends exactly where the
next begins, and the last span ends where the clock minute of `end` begins; so for `start`
and `end` on whole minutes the spans are `[start, end)` with no gap and no overlap. -/
theorem C5_tiling_by_minutes (s e : Time) (h : regularSpan s e) :
    ∃ (rs : List timeRange) (first last : timeRange),
      (∀ fuel, (e.absDay - s.absDay + 1).toNat ≤ fuel → splitLoop fuel s e [] = some rs) ∧
      rs.head? = some first ∧ rs.getLast? = some last ∧
      spanStart first = some (minuteStart s) ∧
      spanEnd last = some (minuteStart e) ∧
      (∀ (i : Nat) (r r' : timeRange), rs[i]? = some r → rs[i + 1]? = some r' →
        ∃ x, spanEnd r = some x ∧ spanStart r' = some x) ∧
      (s.abs % secondsPerMinute = 0 → spanStart first = some s.abs) ∧
      (e.abs % secondsPerMinute = 0 → spanEnd last = some e.abs) := by
  have hd := h.2.1
  have hmid := regularSpan_midnight s e h
  obtain ⟨hb1, hb2, hb3⟩ := rangeCount_bounds s e hd
  have hpos := rangeCount_pos s e hd
  have hlast : spanEnd (rangeAt s e (rangeCount s e - 1)) = some (minuteStart e) := by
    by_cases hm : s.absDay < e.absDay ∧ e.beginsDay
    · have hc := hb3.mpr hm
      have h1 : s.absDay + ((rangeCount s e - 1 : Nat) : Int) ≠ e.absDay := by omega
      have h2 : s.absDay + ((rangeCount s e - 1 : Nat) : Int) + 1 = e.absDay := by omega
      rw [spanEnd_rangeAt_ne s e _ h1 (hmid _ (by omega) (by omega)), h2,
        minuteStart_beginsDay e hm.2 (by rw [← h.1]; exact hmid _ hd (le_refl _))]
    · have hc : rangeCount s e = (e.absDay - s.absDay).toNat + 1 := by
        have : ¬ rangeCount s e = (e.absDay - s.absDay).toNat := fun hh => hm (hb3.mp hh)
        omega
      exact spanEnd_rangeAt_eq s e _ (by omega) (hmid _ (by omega) (by omega))
  refine ⟨expectedRanges s e, rangeAt s e 0, rangeAt s e (rangeCount s e - 1), ?_, ?_, ?_, ?_,
    ?_, ?_, ?_, ?_⟩
  · intro fuel hf
    exact splitLoop_expected s e fuel h (by omega)
  · exact head?_expectedRanges s e hpos
  · exact getLast?_expectedRanges s e hpos
  · exact spanStart_rangeAt_zero s e (hmid _ (le_refl _) hd)
  · exact hlast
  · intro i r r' hr hr'
    obtain ⟨hi, rfl⟩ := getElem?_expectedRanges s e i r hr
    obtain ⟨hi', rfl⟩ := getElem?_expectedRanges s e (i + 1) r' hr'
    exact ⟨_, spanEnd_rangeAt_ne s e i (by omega) (hmid _ (by omega) (by omega)),
      spanStart_rangeAt_succ s e i (hmid _ (by omega) (by omega))⟩
  · intro h0
    rw [spanStart_rangeAt_zero s e (hmid _ (le_refl _) hd), minuteStart, h0, sub_zero]
  · intro h0
    rw [hlast, minuteStart, h0, sub_zero]

theorem C5_witness :
    ParseRFC3339In santiago "2024-09-09T22:00:00-03:00".toList =
        .ok ⟨1725930000, 0, santiago⟩ ∧
      ParseRFC3339In santiago "2024-09-11T06:00:00-03:00".toList =
        .ok ⟨1726045200, 0, santiago⟩ ∧
      regularSpan ⟨1725930000, 0, santiago⟩ ⟨1726045200, 0, santiago⟩ ∧
      splitLoop 3 ⟨1725930000, 0, santiago⟩ ⟨1726045200, 0, santiago⟩ [] =
        some [⟨⟨1725850800, 0, santiago⟩, "22:00".toList, "24:00".toList⟩,
              ⟨⟨1725937200, 0, santiago⟩, "00:00".toList, "24:00".toList⟩,
              ⟨⟨1726023600, 0, santiago⟩, "00:00".toList, "06:00".toList⟩] ∧
      ∃ (rs : List timeRange) (first last : timeRange),
        (∀ fuel, ((⟨1726045200, 0, santiago⟩ : Time).absDay -
            (⟨1725930000, 0, santiago⟩ : Time).absDay + 1).toNat ≤ fuel →
          splitLoop fuel ⟨1725930000, 0, santiago⟩ ⟨1726045200, 0, santiago⟩ [] = some rs) ∧
        rs.head? = some first ∧ rs.getLast? = some last ∧
        spanStart first = some (minuteStart ⟨1725930000, 0, santiago⟩) ∧
        spanEnd last = some (minuteStart ⟨1726045200, 0, santiago⟩) ∧
        (∀ (i : Nat) (r r' : timeRange), rs[i]? = some r → rs[i + 1]? = some r' →
          ∃ x, spanEnd r = some x ∧ spanStart r' = some x) ∧
        ((⟨1725930000, 0, santiago⟩ : Time).abs % secondsPerMinute = 0 →
          spanStart first = some (⟨1725930000, 0, santiago⟩ : Time).abs) ∧
        ((⟨1726045200, 0, santiago⟩ : Time).abs % secondsPerMinute = 0 →
          spanEnd last = some (⟨1726045200, 0, santiago⟩ : Time).abs) :=
  ⟨rfl, rfl, by decide, rfl,
    C5_tiling_by_minutes ⟨1725930000, 0, santiago⟩ ⟨1726045200, 0, santiago⟩ (by decide)⟩

/-- C6 as stated fails when `end` is exactly midnight of a later day: for the event from
2024-01-01 23:30 to 2024-01-02 00:00 (UTC) the last time range has the end label `24:00`,
while the clock time of `end` is `00:00`. -/
theorem C6_counterexample :
    ParseRFC3339 "2024-01-01T23:30:00Z".toList = .ok ⟨1704151800, 0, ⟨0, []⟩⟩ ∧
      ParseRFC3339 "2024-01-02T00:00:00Z".toList = .ok ⟨1704153600, 0, ⟨0, []⟩⟩ ∧
      (⟨1704151800, 0, ⟨0, []⟩⟩ : Time).le ⟨1704153600, 0, ⟨0, []⟩⟩ ∧
      splitLoop 1 ⟨1704151800, 0, ⟨0, []⟩⟩ ⟨1704153600, 0, ⟨0, []⟩⟩ [] =
        some [⟨⟨1704067200, 0, ⟨0, []⟩⟩, "23:30".toList, "24:00".toList⟩] ∧
      clockLabel ⟨1704153600, 0, ⟨0, []⟩⟩ = "00:00".toList ∧
      (⟨⟨1704067200, 0, ⟨0, []⟩⟩, "23:30".toList, "24:00".toList⟩ : timeRange).end_ ≠
        clockLabel ⟨1704153600, 0, ⟨0, []⟩⟩ :=
  ⟨rfl, rfl, by decide, rfl, rfl, by decide⟩

/-- C6, amended. Take two times of one location, the day of `start` not after the day of
`end` (as `start <= end` gives in a zone without transitions), every day from the day of
`start` to the day of `end` beginning with a midnight that `time.Date` finds. Then the first
loop of `Write` leaves; the start label of the first time range is the clock time of `start`;
the end label of the last time range is the clock time of `end`, unless `end` is the instant
with which a day after the day of `start` begins (its clock reads 00:00:00.0), in which case
it is `24:00`. -/
theorem C6_first_last_labels (s e : Time) (h : regularSpan s e) :
    ∃ (rs : List timeRange) (first last : timeRange),
      (∀ fuel, (e.absDay - s.absDay + 1).toNat ≤ fuel → splitLoop fuel s e [] = some rs) ∧
      rs.head? = some first ∧ rs.getLast? = some last ∧
      first.start = clockLabel s ∧
      last.end_ = (if s.absDay < e.absDay ∧ e.beginsDay then "24:00".toList
        else clockLabel e) ∧
      (e.beginsDay → e.isMidnight) := by
  have hd := h.2.1
  obtain ⟨hb1, hb2, hb3⟩ := rangeCount_bounds s e hd
  have hpos := rangeCount_pos s e hd
  refine ⟨expectedRanges s e, rangeAt s e 0, rangeAt s e (rangeCount s e - 1), ?_, ?_, ?_, ?_,
    ?_, ?_⟩
  · intro fuel hf
    exact splitLoop_expected s e fuel h (by omega)
  · exact head?_expectedRanges s e hpos
  · exact getLast?_expectedRanges s e hpos
  · simp [rangeAt, formatTime_eq_clockLabel]
  · by_cases hm : s.absDay < e.absDay ∧ e.beginsDay
    · have hc := hb3.mpr hm
      have h1 : s.absDay + ((rangeCount s e - 1 : Nat) : Int) ≠ e.absDay := by omega
      simp only [rangeAt, h1, if_false, hm, and_self, if_true]
    · have hc : rangeCount s e = (e.absDay - s.absDay).toNat + 1 := by
        have : ¬ rangeCount s e = (e.absDay - s.absDay).toNat := fun hh => hm (hb3.mp hh)
        omega
      have h1 : s.absDay + ((rangeCount s e - 1 : Nat) : Int) = e.absDay := by omega
      simp only [rangeAt, h1, if_true, hm, if_false, formatTime_eq_clockLabel]
  · intro hb
    exact (abs_of_beginsDay e hb
      (by rw [← h.1]; exact regularSpan_midnight s e h _ hd (le_refl _))).2

theorem C6_witness :
    ParseRFC3339 "2024-03-10T22:00:00Z".toList = .ok ⟨1710108000, 0, ⟨0, []⟩⟩ ∧
      ParseRFC3339 "2024-03-13T00:00:00Z".toList = .ok ⟨1710288000, 0, ⟨0, []⟩⟩ ∧
      regularSpan ⟨1710108000, 0, ⟨0, []⟩⟩ ⟨1710288000, 0, ⟨0, []⟩⟩ ∧
      (⟨1710288000, 0, ⟨0, []⟩⟩ : Time).beginsDay ∧
      ∃ (rs : List timeRange) (first last : timeRange),
        (∀ fuel, ((⟨1710288000, 0, ⟨0, []⟩⟩ : Time).absDay -
            (⟨1710108000, 0, ⟨0, []⟩⟩ : Time).absDay + 1).toNat ≤ fuel →
          splitLoop fuel ⟨1710108000, 0, ⟨0, []⟩⟩ ⟨1710288000, 0, ⟨0, []⟩⟩ [] = some rs) ∧
        rs.head? = some first ∧ rs.getLast? = some last ∧
        first.start = clockLabel ⟨1710108000, 0, ⟨0, []⟩⟩ ∧
        last.end_ = (if (⟨1710108000, 0, ⟨0, []⟩⟩ : Time).absDay <
            (⟨1710288000, 0, ⟨0, []⟩⟩ : Time).absDay ∧ (⟨1710288000, 0, ⟨0, []⟩⟩ : Time).beginsDay
          then "24:00".toList else clockLabel ⟨1710288000, 0, ⟨0, []⟩⟩) ∧
        ((⟨1710288000, 0, ⟨0, []⟩⟩ : Time).beginsDay →
          (⟨1710288000, 0, ⟨0, []⟩⟩ : Time).isMidnight) :=
  ⟨rfl, rfl, by decide, by decide,
    C6_first_last_labels ⟨1710108000, 0, ⟨0, []⟩⟩ ⟨1710288000, 0, ⟨0, []⟩⟩
      (regularSpan_of_fixed _ _ rfl rfl (by decide))⟩

theorem prefixLoop_eq (n : Nat) : ∀ (lines : List Str) (i : Nat) (sb : Str),
    n = i + lines.length →
    prefixLoop n i lines sb = sb ++
      (match lines with
        | [] => []
        | line :: rest => (if i ≠ 0 then " ".toList else []) ++ line ++
            (rest.map (fun l => "\n".toList ++ " ".toList ++ l)).flatten) := by
  intro lines
  induction lines with
  | nil => intro i sb _; simp [prefixLoop]
  | cons line rest ih =>
    intro i sb hn
    simp only [prefixLoop]
    rw [ih (i + 1) _ (by simp only [List.length_cons] at hn; omega)]
    cases rest with
    | nil =>
      have h1 : ¬ (i < n - 1) := by simp only [List.length_cons, List.length_nil] at hn; omega
      rw [if_neg h1]
      by_cases h0 : i = 0 <;> simp [h0]
    | cons l2 rest2 =>
      have h1 : i < n - 1 := by simp only [List.length_cons] at hn; omega
      rw [if_pos h1]
      by_cases h0 : i = 0 <;> simp [h0]

theorem prefixString_eq_indentSpec (s : Str) : prefixString s = indentSpec s := by
  simp only [prefixString, indentSpec]
  rw [prefixLoop_eq _ _ 0 [] (by simp)]
  cases strings.Split s '\n' <;> simp

/-- C7. On every text, `prefixString` gives the first line of the text unmodified, then each
subsequent line preceded by a line break and exactly one space, and nothing after the final
line, the lines being the pieces of the text between its line breaks (joined by line breaks
they give the text back, and none contains a line break); the empty text gives the empty
text. With the description `A\nB` every block that
`Write` assembles ends with ` Description: A\n B\n`, as the two blocks of a two-day event
show. -/
theorem C7_prefixString_indent :
    (∀ s : Str, prefixString s = indentSpec s) ∧
      (∀ s : Str, ['\n'].intercalate (strings.Split s '\n') = s ∧
        ∀ line ∈ strings.Split s '\n', '\n' ∉ line) ∧
      prefixString [] = [] ∧
      prefixString "A\nB".toList = "A\n B".toList ∧
      (∀ (start end_ : EventDateTime) (summary location : Str) (r : timeRange) (s : Str),
        ∃ pre : Str,
          renderLoop DateStyleISO
              { Start := start, End := end_, Summary := summary, Location := location,
                Description := "A\nB".toList } [r] s =
            .ok (pre ++ " Description: A\n B\n".toList)) ∧
      Write ParseRFC3339 (NewDiaryWriter bufferSink DateStyleISO) 2
          (exampleEvent "2024-03-10T22:00:00Z" "2024-03-11T06:30:00Z" "A\nB") [] =
        some (.returned none
          ("2024/03/10 22:00-24:00 Standup\n Description: A\n B\n" ++
            "2024/03/11 00:00-06:30 Standup\n Description: A\n B\n").toList) := by
  refine ⟨prefixString_eq_indentSpec,
    fun s => ⟨strings.Split_intercalate s '\n', strings.Split_no_sep s '\n'⟩, rfl, rfl, ?_, rfl⟩
  intro start end_ summary location r s
  have hp : prefixString ['A', '\n', 'B'] = ['A', '\n', ' ', 'B'] := rfl
  rw [renderLoop_eq DateStyleISO _ (Or.inl rfl)]
  by_cases hl : location = []
  · exact ⟨s ++ (dateText DateStyleISO r.date ++ " ".toList ++ r.start ++ "-".toList ++ r.end_ ++
      " ".toList ++ summary ++ "\n".toList), by simp [blocksText, blockText, hl, hp]⟩
  · exact ⟨s ++ (dateText DateStyleISO r.date ++ " ".toList ++ r.start ++ "-".toList ++ r.end_ ++
      " ".toList ++ summary ++ "\n".toList ++ (" Location: ".toList ++ prefixString location ++
      "\n".toList)), by simp [blocksText, blockText, hl, hp]⟩

/-- C8. For every event whose two timestamps parse, under a recognised date style, whatever
the number of iterations allowed: while the first loop has not left, `Write` has not returned
and nothing is sent; once it has left with its time ranges, `Write` makes one call of the
sink, with the concatenation, in the order of the time ranges, of the blocks
`<day> <start>-<end> <summary>\n`, ` Location: ...\n` only for a non-empty location,
` Description: ...\n` only for a non-empty description, and returns `nil`. For two times of
one location, the day of `start` not after the day of `end`, every day from the one to the
other beginning with a midnight that `time.Date` finds, the loop does leave, so that text is
sent. -/
theorem C8_written_text {σ : Type} (parse : Str → Except Str Time) (w : DiaryWriter σ)
    (event : Event) (sink : σ) (start end_ : Time)
    (hs : parse event.Start.DateTime = .ok start) (he : parse event.End.DateTime = .ok end_)
    (hst : recognised w.dateStyle) :
    (∀ fuel, Write parse w fuel event sink =
      (splitLoop fuel start end_ []).map
        (fun rs => .returned none (w.w.Write sink (blocksText w.dateStyle event rs)).1)) ∧
    (regularSpan start end_ →
      ∃ rs : List timeRange, ∀ fuel, (end_.absDay - start.absDay + 1).toNat ≤ fuel →
        splitLoop fuel start end_ [] = some rs ∧
        Write parse w fuel event sink =
          some (.returned none (w.w.Write sink (blocksText w.dateStyle event rs)).1)) := by
  refine ⟨fun fuel => Write_eq parse w fuel event sink start end_ hs he hst, ?_⟩
  intro hreg
  have hd := hreg.2.1
  have hb := (rangeCount_bounds start end_ hd).2.1
  have hrs : ∀ fuel, (end_.absDay - start.absDay + 1).toNat ≤ fuel →
      splitLoop fuel start end_ [] = some (expectedRanges start end_) :=
    fun fuel hf => splitLoop_expected start end_ fuel hreg (by omega)
  refine ⟨expectedRanges start end_, fun fuel hf => ⟨hrs fuel hf, ?_⟩⟩
  rw [Write_eq parse w fuel event sink start end_ hs he hst, hrs fuel hf]
  rfl

theorem C8_witness :
    ParseRFC3339 tripEvent.Start.DateTime = .ok ⟨1710108000, 0, ⟨0, []⟩⟩ ∧
      ParseRFC3339 tripEvent.End.DateTime = .ok ⟨1710138600, 0, ⟨0, []⟩⟩ ∧
      recognised DateStyleUS ∧
      regularSpan ⟨1710108000, 0, ⟨0, []⟩⟩ ⟨1710138600, 0, ⟨0, []⟩⟩ ∧
      Write ParseRFC3339 (NewDiaryWriter bufferSink DateStyleUS) 2 tripEvent "old\n".toList =
        some (.returned none
          ("old\n" ++ "10/03/2024 22:00-24:00 Trip\n Location: Room 1\n Floor 2\n" ++
            "11/03/2024 00:00-06:30 Trip\n Location: Room 1\n Floor 2\n").toList) ∧
      ∃ rs : List timeRange, ∀ fuel,
        ((⟨1710138600, 0, ⟨0, []⟩⟩ : Time).absDay -
          (⟨1710108000, 0, ⟨0, []⟩⟩ : Time).absDay + 1).toNat ≤ fuel →
        splitLoop fuel ⟨1710108000, 0, ⟨0, []⟩⟩ ⟨1710138600, 0, ⟨0, []⟩⟩ [] = some rs ∧
        Write ParseRFC3339 (NewDiaryWriter bufferSink DateStyleUS) fuel tripEvent
            "old\n".toList =
          some (.returned none ((NewDiaryWriter bufferSink DateStyleUS).w.Write "old\n".toList
            (blocksText (NewDiaryWriter bufferSink DateStyleUS).dateStyle tripEvent rs)).1) :=
  ⟨rfl, rfl, Or.inr (Or.inl rfl), by decide,
    ((C8_written_text ParseRFC3339 (NewDiaryWriter bufferSink DateStyleUS) tripEvent
      "old\n".toList ⟨1710108000, 0, ⟨0, []⟩⟩ ⟨1710138600, 0, ⟨0, []⟩⟩ rfl rfl
      (Or.inr (Or.inl rfl))).1 2).trans rfl,
    (C8_written_text ParseRFC3339 (NewDiaryWriter bufferSink DateStyleUS) tripEvent
      "old\n".toList ⟨1710108000, 0, ⟨0, []⟩⟩ ⟨1710138600, 0, ⟨0, []⟩⟩ rfl rfl
      (Or.inr (Or.inl rfl))).2 (by decide)⟩

/-- C9. If the start timestamp or the end timestamp of an event does not parse, `Write`
returns an error and leaves the sink as it was, whatever the sink and the date style; and
when both parse, `Write` never returns an error. -/
theorem C9_parse_failure {σ : Type} (parse : Str → Except Str Time) (w : DiaryWriter σ)
    (fuel : Nat) (event : Event) (sink : σ) :
    (∀ err, parse event.Start.DateTime = .error err →
      ∃ msg, Write parse w fuel event sink = some (.returned (some msg) sink)) ∧
    (∀ start err, parse event.Start.DateTime = .ok start →
      parse event.End.DateTime = .error err →
      ∃ msg, Write parse w fuel event sink = some (.returned (some msg) sink)) ∧
    (∀ start end_, parse event.Start.DateTime = .ok start →
      parse event.End.DateTime = .ok end_ →
      ∀ msg sink', Write parse w fuel event sink ≠ some (.returned (some msg) sink')) := by
  refine ⟨?_, ?_, ?_⟩
  · intro err h
    simp only [Write, h]
    exact ⟨_, rfl⟩
  · intro start err h1 h2
    simp only [Write, h1, h2]
    exact ⟨_, rfl⟩
  · intro start end_ h1 h2 msg sink'
    simp only [Write, h1, h2]
    cases splitLoop fuel start end_ [] with
    | none => simp
    | some rs =>
      simp only
      split <;> simp

theorem C9_witness :
    ParseRFC3339 allDayEvent.Start.DateTime = .error "cannot parse timestamp".toList ∧
      ∃ msg, Write ParseRFC3339 (NewDiaryWriter bufferSink DateStyleISO) 5 allDayEvent
        "old\n".toList = some (.returned (some msg) "old\n".toList) :=
  ⟨rfl, (C9_parse_failure ParseRFC3339 (NewDiaryWriter bufferSink DateStyleISO) 5 allDayEvent
    "old\n".toList).1 _ rfl⟩

/-- C10 fails on the code: with a sink that rejects the write, `Write` still returns `nil`.
The sink reports `broken pipe` for the text of the event, and the call of `Write` that sends
this text returns no error. -/
theorem C10_sink_error_dropped :
    (brokenSink.Write [] "2024/05/01 10:00-10:00 Standup\n".toList).2 =
        some "broken pipe".toList ∧
      Write ParseRFC3339 (NewDiaryWriter brokenSink DateStyleISO) 1
          (exampleEvent "2024-05-01T10:00:00Z" "2024-05-01T10:00:00Z" "") [] =
        some (.returned none []) :=
  ⟨rfl, rfl⟩

theorem decimalDigits_succ (fuel n : Nat) (acc : Str) :
    decimalDigits (fuel + 1) n acc =
      if n ≥ 10 then decimalDigits fuel (n / 10) (digitChar (n % 10) :: acc)
      else digitChar n :: acc := by
  have h3 : n - n / 10 * 10 = n % 10 := by omega
  simp only [decimalDigits, h3]

theorem decimalDigits_lt_tenThousand (n : Nat) (h : n < 10000) :
    decimalDigits 19 n [] =
      if n < 10 then [digitChar n]
      else if n < 100 then [digitChar (n / 10), digitChar (n % 10)]
      else if n < 1000 then [digitChar (n / 100), digitChar (n / 10 % 10), digitChar (n % 10)]
      else [digitChar (n / 1000), digitChar (n / 100 % 10), digitChar (n / 10 % 10),
        digitChar (n % 10)] := by
  by_cases h1 : n < 10
  · rw [decimalDigits_succ, if_neg (by omega), if_pos h1]
  · by_cases h2 : n < 100
    · rw [decimalDigits_succ, if_pos (by omega), decimalDigits_succ, if_neg (by omega),
        if_neg h1, if_pos h2]
    · by_cases h3 : n < 1000
      · rw [decimalDigits_succ, if_pos (by omega), decimalDigits_succ, if_pos (by omega),
          decimalDigits_succ, if_neg (by omega), if_neg h1, if_neg h2, if_pos h3]
        have e : n / 10 / 10 = n / 100 := by omega
        rw [e]
      · rw [decimalDigits_succ, if_pos (by omega), decimalDigits_succ, if_pos (by omega),
          decimalDigits_succ, if_pos (by omega), decimalDigits_succ, if_neg (by omega),
          if_neg h1, if_neg h2, if_neg h3]
        have e1 : n / 10 / 10 / 10 = n / 1000 := by omega
        have e2 : n / 10 / 10 % 10 = n / 100 % 10 := by omega
        rw [e1, e2]

theorem appendInt_four (b : Str) (x : Int) (h0 : 0 ≤ x) (h1 : x ≤ 9999) :
    appendInt b x 4 = b ++ fourDigits x := by
  have hn : x.natAbs = x.toNat := by omega
  have hlt : x.toNat < 10000 := by omega
  simp only [appendInt, not_lt.mpr h0, if_false, hn, decimalDigits_lt_tenThousand _ hlt,
    fourDigits]
  by_cases c1 : x.toNat < 10
  · have e1 : x.toNat / 1000 = 0 := by omega
    have e2 : x.toNat / 100 % 10 = 0 := by omega
    have e3 : x.toNat / 10 % 10 = 0 := by omega
    have e4 : x.toNat % 10 = x.toNat := by omega
    simp [c1, e1, e2, e3, e4, digitChar_zero, List.replicate]
  · by_cases c2 : x.toNat < 100
    · have e1 : x.toNat / 1000 = 0 := by omega
      have e2 : x.toNat / 100 % 10 = 0 := by omega
      have e3 : x.toNat / 10 % 10 = x.toNat / 10 := by omega
      simp [c1, c2, e1, e2, e3, digitChar_zero, List.replicate]
    · by_cases c3 : x.toNat < 1000
      · have e1 : x.toNat / 1000 = 0 := by omega
        have e2 : x.toNat / 100 % 10 = x.toNat / 100 := by omega
        simp [c1, c2, c3, e1, e2, digitChar_zero, List.replicate]
      · simp [c1, c2, c3]

theorem appendInt_prepend (x : Int) (width : Nat) (b : Str) :
    appendInt b x width = b ++ appendInt [] x width := by
  simp only [appendInt]
  split_ifs <;> simp

theorem appendInt_twoDigits (b : Str) (x : Int) (h0 : 0 ≤ x) (h1 : x < 100) :
    appendInt b x 2 = b ++ twoDigits x := appendInt_two b x h0 h1

theorem Month_Day_range (t : Time) : 1 ≤ t.Month ∧ t.Month ≤ 12 ∧ 1 ≤ t.Day ∧ t.Day ≤ 31 := by
  obtain ⟨-, a2, a3⟩ := absYearDay_spec t.abs
  obtain ⟨m1, m2, m3, m4, -⟩ := monthDay_spec (absYearDay t.abs).1 (absYearDay t.abs).2 a2 a3
  simp only [Time.Month, Time.Day, absDate]
  exact ⟨by omega, by omega, m3, m4⟩

theorem Format_ymd (t : Time) :
    t.Format "2006/01/02".toList =
      appendInt (appendInt (appendInt [] t.Year 4 ++ ['/']) t.Month 2 ++ ['/']) t.Day 2 := rfl

theorem Format_dmy (t : Time) :
    t.Format "02/01/2006".toList =
      appendInt (appendInt (appendInt [] t.Day 2 ++ ['/']) t.Month 2 ++ ['/']) t.Year 4 := rfl

theorem Format_mdy (t : Time) :
    t.Format "01/02/2006".toList =
      appendInt (appendInt (appendInt [] t.Month 2 ++ ['/']) t.Day 2 ++ ['/']) t.Year 4 := rfl

theorem formatDate_ISO (t : Time) (h0 : 0 ≤ t.Year) (h1 : t.Year ≤ 9999) :
    formatDate DateStyleISO t =
      .ok (fourDigits t.Year ++ ['/'] ++ twoDigits t.Month ++ ['/'] ++ twoDigits t.Day) := by
  obtain ⟨m1, m2, d1, d2⟩ := Month_Day_range t
  have e : formatDate DateStyleISO t = .ok (t.Format "2006/01/02".toList) := rfl
  rw [e, Format_ymd, appendInt_four _ _ h0 h1, appendInt_twoDigits _ _ (by omega) (by omega),
    appendInt_twoDigits _ _ (by omega) (by omega)]
  simp

theorem formatDate_US (t : Time) :
    formatDate DateStyleUS t =
      .ok (twoDigits t.Day ++ ['/'] ++ twoDigits t.Month ++ ['/'] ++ appendInt [] t.Year 4) := by
  obtain ⟨m1, m2, d1, d2⟩ := Month_Day_range t
  have e : formatDate DateStyleUS t = .ok (t.Format "02/01/2006".toList) := rfl
  have a := appendInt_prepend t.Year 4
  rw [e, Format_dmy, a, appendInt_twoDigits _ _ (by omega) (by omega),
    appendInt_twoDigits _ _ (by omega) (by omega)]
  simp

theorem formatDate_EU (t : Time) :
    formatDate DateStyleEU t =
      .ok (twoDigits t.Month ++ ['/'] ++ twoDigits t.Day ++ ['/'] ++ appendInt [] t.Year 4) := by
  obtain ⟨m1, m2, d1, d2⟩ := Month_Day_range t
  have e : formatDate DateStyleEU t = .ok (t.Format "01/02/2006".toList) := rfl
  have a := appendInt_prepend t.Year 4
  rw [e, Format_mdy, a, appendInt_twoDigits _ _ (by omega) (by omega),
    appendInt_twoDigits _ _ (by omega) (by omega)]
  simp

theorem digitChar_inj (a b : Nat) (ha : a < 10) (hb : b < 10) (h : digitChar a = digitChar b) :
    a = b := by
  have h1 := digitValue_digitChar a ha
  have h2 := digitValue_digitChar b hb
  rw [h, h2] at h1
  exact_mod_cast (Option.some.inj h1).symm

theorem digitChar_ne_slash (a : Nat) (ha : a < 10) : digitChar a ≠ '/' := by
  interval_cases a <;> decide

theorem twoDigits_inj (x y : Int) (hx0 : 0 ≤ x) (hx : x < 100) (hy0 : 0 ≤ y) (hy : y < 100)
    (h : twoDigits x = twoDigits y) : x = y := by
  simp only [twoDigits, List.cons.injEq, and_true] at h
  have h1 := digitChar_inj _ _ (by omega) (by omega) h.1
  have h2 := digitChar_inj _ _ (by omega) (by omega) h.2
  omega

theorem readDigits_twoDigits (x : Int) (h0 : 0 ≤ x) (h1 : x < 100) :
    readDigits (twoDigits x) 0 = some x := by
  simp only [twoDigits, readDigits, digitValue_digitChar _ (show x.toNat / 10 < 10 by omega),
    digitValue_digitChar _ (show x.toNat % 10 < 10 by omega)]
  congr 1
  omega

theorem readDigits_fourDigits (x : Int) (h0 : 0 ≤ x) (h1 : x ≤ 9999) :
    readDigits (fourDigits x) 0 = some x := by
  simp only [fourDigits, readDigits,
    digitValue_digitChar _ (show x.toNat / 1000 < 10 by omega),
    digitValue_digitChar _ (show x.toNat / 100 % 10 < 10 by omega),
    digitValue_digitChar _ (show x.toNat / 10 % 10 < 10 by omega),
    digitValue_digitChar _ (show x.toNat % 10 < 10 by omega)]
  congr 1
  omega

/-- C12. For a calendar day with year 0 to 9999, `formatDate` under `DateStyleUS` gives the
two-digit day, the two-digit month and the four-digit year, joined by `/`, and under
`DateStyleEU` the two-digit month, the two-digit day and the four-digit year, while
`DateStyleISO` gives year, month, day: the same three zero-padded fields (which read back as
the year, the month and the day) in three different orders. -/
theorem C12_US_EU_field_order (t : Time) (h0 : 0 ≤ t.Year) (h1 : t.Year ≤ 9999) :
    formatDate DateStyleUS t =
        .ok (twoDigits t.Day ++ ['/'] ++ twoDigits t.Month ++ ['/'] ++ fourDigits t.Year) ∧
      formatDate DateStyleEU t =
        .ok (twoDigits t.Month ++ ['/'] ++ twoDigits t.Day ++ ['/'] ++ fourDigits t.Year) ∧
      formatDate DateStyleISO t =
        .ok (fourDigits t.Year ++ ['/'] ++ twoDigits t.Month ++ ['/'] ++ twoDigits t.Day) ∧
      readDigits (fourDigits t.Year) 0 = some t.Year ∧
      readDigits (twoDigits t.Month) 0 = some t.Month ∧
      readDigits (twoDigits t.Day) 0 = some t.Day := by
  obtain ⟨m1, m2, d1, d2⟩ := Month_Day_range t
  have e : appendInt [] t.Year 4 = fourDigits t.Year := by
    rw [appendInt_four _ _ h0 h1]; rfl
  refine ⟨by rw [formatDate_US, e], by rw [formatDate_EU, e], formatDate_ISO t h0 h1,
    readDigits_fourDigits _ h0 h1, readDigits_twoDigits _ (by omega) (by omega),
    readDigits_twoDigits _ (by omega) (by omega)⟩

theorem C12_witness :
    (0 : Int) ≤ (⟨1710108000, 0, ⟨0, []⟩⟩ : Time).Year ∧
      (⟨1710108000, 0, ⟨0, []⟩⟩ : Time).Year ≤ 9999 ∧
      (⟨1710108000, 0, ⟨0, []⟩⟩ : Time).Date = (2024, 3, 10) ∧
      formatDate DateStyleUS ⟨1710108000, 0, ⟨0, []⟩⟩ = .ok "10/03/2024".toList ∧
      formatDate DateStyleEU ⟨1710108000, 0, ⟨0, []⟩⟩ = .ok "03/10/2024".toList ∧
      formatDate DateStyleISO ⟨1710108000, 0, ⟨0, []⟩⟩ = .ok "2024/03/10".toList :=
  ⟨by decide, by decide, rfl,
    (C12_US_EU_field_order ⟨1710108000, 0, ⟨0, []⟩⟩ (by decide) (by decide)).1.trans rfl,
    (C12_US_EU_field_order ⟨1710108000, 0, ⟨0, []⟩⟩ (by decide) (by decide)).2.1.trans rfl,
    (C12_US_EU_field_order ⟨1710108000, 0, ⟨0, []⟩⟩ (by decide) (by decide)).2.2.1.trans rfl⟩

/-- C13. For a calendar day with year 0 to 9999, `formatDate` under `DateStyleISO` gives the
10 characters `YYYY/MM/DD`: the four-digit zero-padded year, `/`, the two-digit zero-padded
month, `/`, the two-digit zero-padded day of the month. -/
theorem C13_ISO_fixed_width (t : Time) (h0 : 0 ≤ t.Year) (h1 : t.Year ≤ 9999) :
    ∃ text : Str,
      formatDate DateStyleISO t = .ok text ∧
      text.length = 10 ∧
      text = fourDigits t.Year ++ ['/'] ++ twoDigits t.Month ++ ['/'] ++ twoDigits t.Day ∧
      readDigits (text.take 4) 0 = some t.Year ∧
      readDigits ((text.drop 5).take 2) 0 = some t.Month ∧
      readDigits (text.drop 8) 0 = some t.Day ∧
      text.get? 4 = some '/' ∧ text.get? 7 = some '/' := by
  obtain ⟨m1, m2, d1, d2⟩ := Month_Day_range t
  refine ⟨_, formatDate_ISO t h0 h1, by simp [fourDigits, twoDigits], rfl, ?_, ?_, ?_, ?_, ?_⟩
  · exact readDigits_fourDigits _ h0 h1
  · exact readDigits_twoDigits _ (by omega) (by omega)
  · exact readDigits_twoDigits _ (by omega) (by omega)
  · simp [fourDigits, twoDigits]
  · simp [fourDigits, twoDigits]

theorem C13_witness :
    (0 : Int) ≤ (⟨1714557600, 0, ⟨0, []⟩⟩ : Time).Year ∧
      (⟨1714557600, 0, ⟨0, []⟩⟩ : Time).Year ≤ 9999 ∧
      formatDate DateStyleISO ⟨1714557600, 0, ⟨0, []⟩⟩ = .ok "2024/05/01".toList ∧
      ∃ text : Str,
        formatDate DateStyleISO ⟨1714557600, 0, ⟨0, []⟩⟩ = .ok text ∧
        text.length = 10 ∧
        text = fourDigits (⟨1714557600, 0, ⟨0, []⟩⟩ : Time).Year ++ ['/'] ++
          twoDigits (⟨1714557600, 0, ⟨0, []⟩⟩ : Time).Month ++ ['/'] ++
          twoDigits (⟨1714557600, 0, ⟨0, []⟩⟩ : Time).Day ∧
        readDigits (text.take 4) 0 = some (⟨1714557600, 0, ⟨0, []⟩⟩ : Time).Year ∧
        readDigits ((text.drop 5).take 2) 0 = some (⟨1714557600, 0, ⟨0, []⟩⟩ : Time).Month ∧
        readDigits (text.drop 8) 0 = some (⟨1714557600, 0, ⟨0, []⟩⟩ : Time).Day ∧
        text.get? 4 = some '/' ∧ text.get? 7 = some '/' :=
  ⟨by decide, by decide, rfl,
    C13_ISO_fixed_width ⟨1714557600, 0, ⟨0, []⟩⟩ (by decide) (by decide)⟩

/-- C20. For every calendar day, `formatDate` under `DateStyleUS` and under `DateStyleEU`
return the same string exactly when the day of the month equals the month number; and for
years 0 to 9999 each of the two differs from the rendering under `DateStyleISO`. -/
theorem C20_US_EU_coincide_iff (t : Time) :
    (formatDate DateStyleUS t = formatDate DateStyleEU t ↔ t.Day = t.Month) ∧
      (0 ≤ t.Year → t.Year ≤ 9999 →
        formatDate DateStyleUS t ≠ formatDate DateStyleISO t ∧
        formatDate DateStyleEU t ≠ formatDate DateStyleISO t) := by
  obtain ⟨m1, m2, d1, d2⟩ := Month_Day_range t
  constructor
  · rw [formatDate_US, formatDate_EU]
    constructor
    · intro h
      have h' := Except.ok.inj h
      simp only [twoDigits, List.cons_append, List.nil_append, List.cons.injEq] at h'
      apply twoDigits_inj _ _ (by omega) (by omega) (by omega) (by omega)
      simp only [twoDigits, List.cons.injEq, and_true]
      exact ⟨h'.1, h'.2.1⟩
    · intro h
      rw [h]
  · intro h0 h1
    have hs := digitChar_ne_slash (t.Year.toNat / 10 % 10) (by omega)
    rw [formatDate_US, formatDate_EU, formatDate_ISO t h0 h1]
    constructor
    · intro h
      have h' := Except.ok.inj h
      simp only [twoDigits, fourDigits, List.cons_append, List.nil_append, List.cons.injEq]
        at h'
      exact hs h'.2.2.1.symm
    · intro h
      have h' := Except.ok.inj h
      simp only [twoDigits, fourDigits, List.cons_append, List.nil_append, List.cons.injEq]
        at h'
      exact hs h'.2.2.1.symm

theorem C20_witness :
    (⟨1709460000, 0, ⟨0, []⟩⟩ : Time).Date = (2024, 3, 3) ∧
      formatDate DateStyleUS ⟨1709460000, 0, ⟨0, []⟩⟩ = .ok "03/03/2024".toList ∧
      formatDate DateStyleEU ⟨1709460000, 0, ⟨0, []⟩⟩ = .ok "03/03/2024".toList ∧
      formatDate DateStyleUS ⟨1709460000, 0, ⟨0, []⟩⟩ ≠ formatDate DateStyleISO ⟨1709460000, 0, ⟨0, []⟩⟩ ∧
      formatDate DateStyleEU ⟨1709460000, 0, ⟨0, []⟩⟩ ≠ formatDate DateStyleISO ⟨1709460000, 0, ⟨0, []⟩⟩ ∧
      (formatDate DateStyleUS ⟨1710108000, 0, ⟨0, []⟩⟩ = formatDate DateStyleEU ⟨1710108000, 0, ⟨0, []⟩⟩ ↔
        (⟨1710108000, 0, ⟨0, []⟩⟩ : Time).Day = (⟨1710108000, 0, ⟨0, []⟩⟩ : Time).Month) :=
  ⟨rfl, rfl, rfl,
    ((C20_US_EU_coincide_iff ⟨1709460000, 0, ⟨0, []⟩⟩).2 (by decide) (by decide)).1,
    ((C20_US_EU_coincide_iff ⟨1709460000, 0, ⟨0, []⟩⟩).2 (by decide) (by decide)).2,
    (C20_US_EU_coincide_iff ⟨1710108000, 0, ⟨0, []⟩⟩).1⟩


theorem splitLoop_entries : ∀ (fuel : Nat) (b e : Time) (acc rs : List timeRange),
    splitLoop fuel b e acc = some rs →
    ∃ new : List timeRange, rs = acc ++ new ∧ new ≠ [] ∧
      ∀ r ∈ new, ∃ c : Time, c.loc = b.loc ∧ r.date = midnight c.absDay c.loc ∧
        r.start = formatTime c ∧
        ((c.absDay = e.absDay ∧ r.end_ = formatTime e) ∨
          (c.absDay ≠ e.absDay ∧ r.end_ = "24:00".toList)) := by
  intro fuel
  induction fuel with
  | zero => intro b e acc rs h; simp [splitLoop] at h
  | succ f ih =>
    intro b e acc rs h
    rw [splitLoop_succ] at h
    by_cases hd : b.absDay = e.absDay
    · rw [if_pos hd] at h
      refine ⟨[⟨midnight b.absDay b.loc, formatTime b, formatTime e⟩], (Option.some.inj h).symm,
        by simp, ?_⟩
      intro r hr
      simp only [List.mem_singleton] at hr
      subst hr
      exact ⟨b, rfl, rfl, rfl, Or.inl ⟨hd, rfl⟩⟩
    · rw [if_neg hd] at h
      have hfirst : ∀ r ∈ [(⟨midnight b.absDay b.loc, formatTime b, "24:00".toList⟩ : timeRange)],
          ∃ c : Time, c.loc = b.loc ∧ r.date = midnight c.absDay c.loc ∧
            r.start = formatTime c ∧
            ((c.absDay = e.absDay ∧ r.end_ = formatTime e) ∨
              (c.absDay ≠ e.absDay ∧ r.end_ = "24:00".toList)) := by
        intro r hr
        simp only [List.mem_singleton] at hr
        subst hr
        exact ⟨b, rfl, rfl, rfl, Or.inr ⟨hd, rfl⟩⟩
      by_cases hs : (midnight (b.absDay + 1) b.loc).Equal e = true
      · rw [if_pos hs] at h
        exact ⟨_, (Option.some.inj h).symm, by simp, hfirst⟩
      · rw [if_neg hs] at h
        obtain ⟨new, hrs, -, hnew⟩ := ih _ e _ rs h
        refine ⟨⟨midnight b.absDay b.loc, formatTime b, "24:00".toList⟩ :: new,
          by rw [hrs]; simp, by simp, ?_⟩
        intro r hr
        simp only [List.mem_cons] at hr
        rcases hr with hr | hr
        · exact hfirst r (by simp [hr])
        · obtain ⟨c, hc, hrest⟩ := hnew r hr
          exact ⟨c, by rw [hc, loc_midnight], hrest⟩

theorem formatTime_ne_sentinel (t : Time) : formatTime t ≠ "24:00".toList := by
  obtain ⟨h1, h2, -, -, -, -⟩ := absClock_range t.abs
  rw [formatTime_eq_clockLabel]
  intro h
  have e2 : ('2' : Char) = digitChar 2 := by decide
  have e4 : ('4' : Char) = digitChar 4 := by decide
  simp only [clockLabel, String.toList, List.cons.injEq] at h
  have a := digitChar_inj _ _ (by simp only [Time.Hour]; omega) (by omega) (h.1.trans e2)
  have b := digitChar_inj _ _ (by omega) (by omega) (h.2.1.trans e4)
  simp only [Time.Hour] at a b
  omega

/-- C15. `formatTime` renders every instant as the 5 characters `HH:MM`, the hour from 00 to
23 and the minute from 00 to 59, each with two digits; the method does not read the date
style of its writer. So `formatTime` never gives `24:00`; in the time ranges that the first
loop of `Write` collects, `24:00` is never a start label, and a time range whose end label
is `24:00` was collected at a cursor that is not on the day of `end`; where the day of that
cursor begins with a midnight that `time.Date` finds, as every day does in a zone without
transitions, the time range is not dated the day of `end`. -/
theorem C15_formatTime_clock :
    (∀ t : Time,
      formatTime t = twoDigits t.Hour ++ [':'] ++ twoDigits t.Minute ∧
      (formatTime t).length = 5 ∧
      0 ≤ t.Hour ∧ t.Hour < 24 ∧ 0 ≤ t.Minute ∧ t.Minute < 60 ∧
      readDigits ((formatTime t).take 2) 0 = some t.Hour ∧
      readDigits ((formatTime t).drop 3) 0 = some t.Minute ∧
      formatTime t ≠ "24:00".toList) ∧
    (∀ (fuel : Nat) (s e : Time) (rs : List timeRange),
      splitLoop fuel s e [] = some rs →
      ∀ r ∈ rs, r.start ≠ "24:00".toList ∧
        (r.end_ = "24:00".toList →
          (∃ c : Time, r.date = Date c.Year c.Month c.Day 0 0 0 0 c.Location ∧
            r.start = formatTime c ∧ c.Date ≠ e.Date ∧
            (s.loc.hasMidnight c.absDay → r.date.Date ≠ e.Date)) ∧
          ((∀ d : Int, s.loc.hasMidnight d) → r.date.Date ≠ e.Date))) := by
  constructor
  · intro t
    obtain ⟨h1, h2, h3, h4, -, -⟩ := absClock_range t.abs
    have e : formatTime t = twoDigits t.Hour ++ [':'] ++ twoDigits t.Minute := by
      rw [formatTime_eq_clockLabel]; rfl
    refine ⟨e, by rw [e]; simp [twoDigits], h1, h2, h3, h4, ?_, ?_, formatTime_ne_sentinel t⟩
    · rw [e]
      exact readDigits_twoDigits _ h1 (by simp only [Time.Hour]; omega)
    · rw [e]
      exact readDigits_twoDigits _ h3 (by simp only [Time.Minute]; omega)
  · intro fuel s e rs h r hr
    obtain ⟨new, hrs, -, hnew⟩ := splitLoop_entries fuel s e [] rs h
    rw [hrs, List.nil_append] at hr
    obtain ⟨c, hloc, hdate, hstart, hend⟩ := hnew r hr
    refine ⟨by rw [hstart]; exact formatTime_ne_sentinel c, ?_⟩
    intro h24
    rcases hend with ⟨-, he⟩ | ⟨hne, -⟩
    · exact absurd (he.symm.trans h24) (formatTime_ne_sentinel e)
    · have hreg : s.loc.hasMidnight c.absDay → r.date.Date ≠ e.Date := by
        intro hm
        apply Date_ne_of_absDay_ne
        rw [hdate, hloc, absDay_midnight _ _ hm]
        exact hne
      exact ⟨⟨c, by rw [hdate, Date_self0], hstart, Date_ne_of_absDay_ne c e hne, hreg⟩,
        fun hall => hreg (hall _)⟩

theorem C15_witness :
    splitLoop 3 ⟨1710108000, 0, ⟨0, []⟩⟩ ⟨1710225000, 0, ⟨0, []⟩⟩ [] =
        some [⟨⟨1710028800, 0, ⟨0, []⟩⟩, "22:00".toList, "24:00".toList⟩,
              ⟨⟨1710115200, 0, ⟨0, []⟩⟩, "00:00".toList, "24:00".toList⟩,
              ⟨⟨1710201600, 0, ⟨0, []⟩⟩, "00:00".toList, "06:30".toList⟩] ∧
      formatTime ⟨1710287999, 999999999, ⟨0, []⟩⟩ = "23:59".toList ∧
      ∀ r ∈ [(⟨⟨1710028800, 0, ⟨0, []⟩⟩, "22:00".toList, "24:00".toList⟩ : timeRange),
              ⟨⟨1710115200, 0, ⟨0, []⟩⟩, "00:00".toList, "24:00".toList⟩,
              ⟨⟨1710201600, 0, ⟨0, []⟩⟩, "00:00".toList, "06:30".toList⟩],
        r.start ≠ "24:00".toList ∧
          (r.end_ = "24:00".toList → r.date.Date ≠ (⟨1710225000, 0, ⟨0, []⟩⟩ : Time).Date) :=
  ⟨rfl, rfl, fun r hr =>
    ⟨(C15_formatTime_clock.2 3 ⟨1710108000, 0, ⟨0, []⟩⟩ ⟨1710225000, 0, ⟨0, []⟩⟩ _ rfl r hr).1,
      fun h24 =>
        ((C15_formatTime_clock.2 3 ⟨1710108000, 0, ⟨0, []⟩⟩ ⟨1710225000, 0, ⟨0, []⟩⟩ _ rfl r
          hr).2 h24).2 (hasMidnight_fixed _ rfl)⟩⟩

theorem formatDate_unrecognised (dateStyle : DateStyle) (t : Time) (h : ¬ recognised dateStyle) :
    formatDate dateStyle t = .error "unknown date style".toList := by
  simp only [recognised, not_or] at h
  simp only [formatDate, h.1, h.2.1, h.2.2, if_false]

theorem renderLoop_unrecognised (dateStyle : DateStyle) (event : Event) (r : timeRange)
    (rest : List timeRange) (s : Str) (h : ¬ recognised dateStyle) :
    renderLoop dateStyle event (r :: rest) s = .error "unknown date style".toList := by
  simp only [renderLoop, formatDate_unrecognised dateStyle r.date h]

theorem Write_unrecognised {σ : Type} (parse : Str → Except Str Time) (w : DiaryWriter σ)
    (fuel : Nat) (event : Event) (sink : σ) (start end_ : Time)
    (hs : parse event.Start.DateTime = .ok start) (he : parse event.End.DateTime = .ok end_)
    (hst : ¬ recognised w.dateStyle) :
    Write parse w fuel event sink =
      (splitLoop fuel start end_ []).map
        (fun _ => .panicked "unknown date style".toList sink) := by
  cases hrs : splitLoop fuel start end_ [] with
  | none => simp only [Write, hs, he, hrs, Option.map_none']
  | some rs =>
    obtain ⟨new, hnew, hne, -⟩ := splitLoop_entries fuel start end_ [] rs hrs
    rw [List.nil_append] at hnew
    subst hnew
    obtain ⟨r, rest, rfl⟩ := List.exists_cons_of_ne_nil hne
    simp only [Write, hs, he, hrs, renderLoop_unrecognised w.dateStyle event r rest [] hst,
      Option.map_some']

/-- C11 as stated fails on `NewDiaryWriter`: it accepts the date style 3 without any failure,
and the call of `Write` on a valid event is what fails, by the panic of `formatDate`. -/
theorem C11_counterexample :
    ¬ recognised 3 ∧
      (NewDiaryWriter bufferSink 3).dateStyle = 3 ∧
      ParseRFC3339 "2024-05-01T10:00:00Z".toList = .ok ⟨1714557600, 0, ⟨0, []⟩⟩ ∧
      Write ParseRFC3339 (NewDiaryWriter bufferSink 3) 1
          (exampleEvent "2024-05-01T10:00:00Z" "2024-05-01T10:00:00Z" "") [] =
        some (.panicked "unknown date style".toList []) :=
  ⟨by decide, rfl, rfl, rfl⟩

/-- C11, amended. The style selection of `main` is the one place where an unrecognised style
fails at setup: it lower-cases the flag value and gives one of the three date styles when the
result is `iso`, `us` or `eu`, and exits otherwise; so on the writer that `main` sets up no
call of `Write` panics. `NewDiaryWriter` itself accepts every date style. With a style other
than the three, a call of `Write` on an event whose timestamps parse never returns normally:
whatever the number of iterations allowed, it has either not left its first loop, or it has
panicked with `unknown date style` and left the sink as it was; where the first loop leaves
(two times of one location, days in order, each beginning with a midnight that `time.Date`
finds) the call does panic. -/
theorem C11_style_failure {σ : Type} (parse : Str → Except Str Time) (w : Writer σ)
    (fuel : Nat) (event : Event) (sink : σ) :
    (∀ (toLower : Str → Str) (flag : Str) (dateStyle : DateStyle),
      main.dateStyle toLower flag = .ok dateStyle → recognised dateStyle) ∧
    (∀ (toLower : Str → Str) (flag : Str),
      toLower flag ≠ "iso".toList → toLower flag ≠ "us".toList → toLower flag ≠ "eu".toList →
      ∃ msg, main.dateStyle toLower flag = .error msg) ∧
    (∀ (toLower : Str → Str) (flag : Str),
      toLower flag = "iso".toList ∨ toLower flag = "us".toList ∨ toLower flag = "eu".toList →
      ∃ dateStyle, main.dateStyle toLower flag = .ok dateStyle) ∧
    (∀ dateStyle : DateStyle, recognised dateStyle → ∀ msg sink',
      Write parse (NewDiaryWriter w dateStyle) fuel event sink ≠ some (.panicked msg sink')) ∧
    (∀ (dateStyle : DateStyle) (start end_ : Time),
      ¬ recognised dateStyle →
      parse event.Start.DateTime = .ok start → parse event.End.DateTime = .ok end_ →
      Write parse (NewDiaryWriter w dateStyle) fuel event sink =
        (splitLoop fuel start end_ []).map
          (fun _ => .panicked "unknown date style".toList sink)) ∧
    (∀ (dateStyle : DateStyle) (start end_ : Time),
      ¬ recognised dateStyle →
      parse event.Start.DateTime = .ok start → parse event.End.DateTime = .ok end_ →
      regularSpan start end_ → (end_.absDay - start.absDay + 1).toNat ≤ fuel →
      Write parse (NewDiaryWriter w dateStyle) fuel event sink =
        some (.panicked "unknown date style".toList sink)) := by
  refine ⟨?_, ?_, ?_, ?_, ?_, ?_⟩
  · intro toLower flag dateStyle h
    simp only [main.dateStyle] at h
    split_ifs at h
    · exact Or.inl (Except.ok.inj h).symm
    · exact Or.inr (Or.inl (Except.ok.inj h).symm)
    · exact Or.inr (Or.inr (Except.ok.inj h).symm)
  · intro toLower flag h1 h2 h3
    simp only [main.dateStyle, h1, h2, h3, if_false]
    exact ⟨_, rfl⟩
  · intro toLower flag h
    simp only [main.dateStyle]
    split_ifs with h1 h2 h3
    · exact ⟨_, rfl⟩
    · exact ⟨_, rfl⟩
    · exact ⟨_, rfl⟩
    · rcases h with h | h | h
      · exact absurd h h1
      · exact absurd h h2
      · exact absurd h h3
  · intro dateStyle hst msg sink'
    simp only [Write, NewDiaryWriter]
    cases parse event.Start.DateTime with
    | error err => simp
    | ok start =>
      cases parse event.End.DateTime with
      | error err => simp
      | ok end_ =>
        simp only
        cases splitLoop fuel start end_ [] with
        | none => simp
        | some rs => simp [renderLoop_eq dateStyle event hst]
  · intro dateStyle start end_ hst hs he
    exact Write_unrecognised parse (NewDiaryWriter w dateStyle) fuel event sink start end_ hs he
      hst
  · intro dateStyle start end_ hst hs he hreg hfuel
    have hd := hreg.2.1
    have hb := (rangeCount_bounds start end_ hd).2.1
    rw [Write_unrecognised parse (NewDiaryWriter w dateStyle) fuel event sink start end_ hs he
      hst, splitLoop_expected start end_ fuel hreg (by omega)]
    rfl

theorem C11_witness :
    main.dateStyle asciiLower "US".toList = .ok DateStyleUS ∧
      asciiLower "US".toList = "us".toList ∧
      recognised DateStyleUS ∧
      (∃ dateStyle, main.dateStyle asciiLower "US".toList = .ok dateStyle) ∧
      (∃ msg, main.dateStyle asciiLower "uk".toList = .error msg) ∧
      ¬ recognised 7 ∧
      regularSpan ⟨1710108000, 0, ⟨0, []⟩⟩ ⟨1710138600, 0, ⟨0, []⟩⟩ ∧
      Write ParseRFC3339 (NewDiaryWriter bufferSink 7) 2 tripEvent "old\n".toList =
        some (.panicked "unknown date style".toList "old\n".toList) ∧
      Write ParseRFC3339 (NewDiaryWriter bufferSink 7) 1000
          (exampleEvent "2024-01-04T00:00:00Z" "2024-01-02T00:00:00Z" "") [] =
        (splitLoop 1000 ⟨1704326400, 0, ⟨0, []⟩⟩ ⟨1704153600, 0, ⟨0, []⟩⟩ []).map
          (fun _ => .panicked "unknown date style".toList []) :=
  ⟨rfl, by decide,
    (C11_style_failure ParseRFC3339 bufferSink 2 tripEvent "old\n".toList).1 asciiLower
      "US".toList DateStyleUS rfl,
    (C11_style_failure ParseRFC3339 bufferSink 2 tripEvent "old\n".toList).2.2.1 asciiLower
      "US".toList (Or.inr (Or.inl (by decide))),
    (C11_style_failure ParseRFC3339 bufferSink 2 tripEvent "old\n".toList).2.1 asciiLower
      "uk".toList (by decide) (by decide) (by decide),
    by decide, by decide,
    (C11_style_failure ParseRFC3339 bufferSink 2 tripEvent "old\n".toList).2.2.2.2.2 7
      ⟨1710108000, 0, ⟨0, []⟩⟩ ⟨1710138600, 0, ⟨0, []⟩⟩ (by decide) rfl rfl (by decide)
      (by decide),
    (C11_style_failure ParseRFC3339 bufferSink 1000
      (exampleEvent "2024-01-04T00:00:00Z" "2024-01-02T00:00:00Z" "") []).2.2.2.2.1 7
      ⟨1704326400, 0, ⟨0, []⟩⟩ ⟨1704153600, 0, ⟨0, []⟩⟩ (by decide) rfl rfl⟩


/-- C14 fails on the code where a day of the event has no midnight. With `time.Local` the
zone America/Santiago, take the start 2024-09-07 22:00 (written with `-04:00`) and the end
2024-09-09 06:00 (written with `-03:00`), both in `Local` and in order. After three
iterations the first loop of `Write` has collected 22:00-24:00, 23:00-24:00 and 23:00-24:00,
all three dated 2024-09-07, and its cursor is at 23:00 of 2024-09-07 again: the days of the
time ranges do not increase, the loop never leaves, and no block is ever written. -/
theorem C14_days_do_not_increase :
    ParseRFC3339In santiago "2024-09-07T22:00:00-04:00".toList =
        .ok ⟨1725760800, 0, santiago⟩ ∧
      ParseRFC3339In santiago "2024-09-09T06:00:00-03:00".toList =
        .ok ⟨1725872400, 0, santiago⟩ ∧
      (⟨1725760800, 0, santiago⟩ : Time).le ⟨1725872400, 0, santiago⟩ ∧
      (∀ fuel : Nat,
        splitLoop (fuel + 3) ⟨1725760800, 0, santiago⟩ ⟨1725872400, 0, santiago⟩ [] =
          splitLoop fuel ⟨1725764400, 0, santiago⟩ ⟨1725872400, 0, santiago⟩
            [⟨⟨1725681600, 0, santiago⟩, "22:00".toList, "24:00".toList⟩,
             ⟨⟨1725681600, 0, santiago⟩, "23:00".toList, "24:00".toList⟩,
             ⟨⟨1725681600, 0, santiago⟩, "23:00".toList, "24:00".toList⟩]) ∧
      (⟨1725681600, 0, santiago⟩ : Time).Date = (2024, 9, 7) ∧
      (⟨1725764400, 0, santiago⟩ : Time).Date = (2024, 9, 7) ∧
      (∀ fuel : Nat,
        splitLoop fuel ⟨1725760800, 0, santiago⟩ ⟨1725872400, 0, santiago⟩ [] = none) ∧
      (∀ fuel : Nat,
        Write (ParseRFC3339In santiago) (NewDiaryWriter bufferSink DateStyleISO) fuel
          (exampleEvent "2024-09-07T22:00:00-04:00" "2024-09-09T06:00:00-03:00" "") [] =
          none) :=
  ⟨rfl, rfl, by decide, fun _ => rfl, rfl, rfl,
    fun fuel => splitLoop_skipped _ _ (by decide) (by decide) (by decide) fuel [],
    fun fuel => Write_none _ _ fuel _ _ ⟨1725760800, 0, santiago⟩ ⟨1725872400, 0, santiago⟩
      rfl rfl (splitLoop_skipped _ _ (by decide) (by decide) (by decide) fuel [])⟩

/-- C16. For an event whose timestamps parse, under a recognised date style, with a sink that
records the calls of its `Write`: while the first loop has not left, `Write` has returned
nothing and called nothing; once it has left, the sink has received exactly one call more,
whose bytes are the whole concatenation of the blocks of the event. For two times of one
location, the day of `start` not after the day of `end`, every day from the one to the other
beginning with a midnight that `time.Date` finds, the loop does leave, so this one call is
made. -/
theorem C16_single_write (parse : Str → Except Str Time) (dateStyle : DateStyle)
    (event : Event) (calls : List Str) (start end_ : Time)
    (hs : parse event.Start.DateTime = .ok start) (he : parse event.End.DateTime = .ok end_)
    (hst : recognised dateStyle) :
    (∀ fuel, Write parse (NewDiaryWriter recordingSink dateStyle) fuel event calls =
      (splitLoop fuel start end_ []).map
        (fun rs => .returned none (calls ++ [blocksText dateStyle event rs]))) ∧
    (regularSpan start end_ →
      ∃ rs : List timeRange, ∀ fuel, (end_.absDay - start.absDay + 1).toNat ≤ fuel →
        splitLoop fuel start end_ [] = some rs ∧
        Write parse (NewDiaryWriter recordingSink dateStyle) fuel event calls =
          some (.returned none (calls ++ [blocksText dateStyle event rs]))) := by
  have hw : ∀ fuel, Write parse (NewDiaryWriter recordingSink dateStyle) fuel event calls =
      (splitLoop fuel start end_ []).map
        (fun rs => .returned none (calls ++ [blocksText dateStyle event rs])) := by
    intro fuel
    rw [Write_eq parse (NewDiaryWriter recordingSink dateStyle) fuel event calls start end_ hs
      he hst]
    rfl
  refine ⟨hw, ?_⟩
  intro hreg
  have hd := hreg.2.1
  have hb := (rangeCount_bounds start end_ hd).2.1
  refine ⟨expectedRanges start end_, fun fuel hf => ?_⟩
  have hrs := splitLoop_expected start end_ fuel hreg (by omega)
  exact ⟨hrs, by rw [hw, hrs]; rfl⟩

theorem C16_witness :
    ParseRFC3339 tripEvent.Start.DateTime = .ok ⟨1710108000, 0, ⟨0, []⟩⟩ ∧
      ParseRFC3339 tripEvent.End.DateTime = .ok ⟨1710138600, 0, ⟨0, []⟩⟩ ∧
      recognised DateStyleISO ∧
      regularSpan ⟨1710108000, 0, ⟨0, []⟩⟩ ⟨1710138600, 0, ⟨0, []⟩⟩ ∧
      Write ParseRFC3339 (NewDiaryWriter recordingSink DateStyleISO) 2 tripEvent
          ["earlier\n".toList] =
        some (.returned none
          ["earlier\n".toList,
           ("2024/03/10 22:00-24:00 Trip\n Location: Room 1\n Floor 2\n" ++
            "2024/03/11 00:00-06:30 Trip\n Location: Room 1\n Floor 2\n").toList]) ∧
      ∃ rs : List timeRange, ∀ fuel,
        ((⟨1710138600, 0, ⟨0, []⟩⟩ : Time).absDay -
          (⟨1710108000, 0, ⟨0, []⟩⟩ : Time).absDay + 1).toNat ≤ fuel →
        splitLoop fuel ⟨1710108000, 0, ⟨0, []⟩⟩ ⟨1710138600, 0, ⟨0, []⟩⟩ [] = some rs ∧
        Write ParseRFC3339 (NewDiaryWriter recordingSink DateStyleISO) fuel tripEvent
            ["earlier\n".toList] =
          some (.returned none (["earlier\n".toList] ++ [blocksText DateStyleISO tripEvent rs])) :=
  ⟨rfl, rfl, Or.inl rfl, by decide,
    ((C16_single_write ParseRFC3339 DateStyleISO tripEvent ["earlier\n".toList]
      ⟨1710108000, 0, ⟨0, []⟩⟩ ⟨1710138600, 0, ⟨0, []⟩⟩ rfl rfl (Or.inl rfl)).1 2).trans rfl,
    (C16_single_write ParseRFC3339 DateStyleISO tripEvent ["earlier\n".toList]
      ⟨1710108000, 0, ⟨0, []⟩⟩ ⟨1710138600, 0, ⟨0, []⟩⟩ rfl rfl (Or.inl rfl)).2 (by decide)⟩

/-- C17. For an event whose timestamps parse, under a recognised date style, whatever the
number of iterations allowed, what a call of `Write` does is fixed by the event alone: either
no call has left the first loop, or there is one text that every call sends, whatever the
state of the sink. For two times of one location, the day of `start` not after the day of
`end`, every day from the one to the other beginning with a midnight that `time.Date` finds,
there is such a text: a second call on the same event sends the same bytes as the first, and
a sink that keeps what it receives holds, after the two calls, its prior contents followed by
that text twice. -/
theorem C17_write_twice {σ : Type} (parse : Str → Except Str Time) (w : DiaryWriter σ)
    (fuel : Nat) (event : Event) (start end_ : Time)
    (hs : parse event.Start.DateTime = .ok start) (he : parse event.End.DateTime = .ok end_)
    (hst : recognised w.dateStyle) :
    (∃ sent : Option Str,
      (∀ sink : σ, Write parse w fuel event sink =
        sent.map (fun text => .returned none (w.w.Write sink text).1)) ∧
      (∀ prior : Str, Write parse (NewDiaryWriter bufferSink w.dateStyle) fuel event prior =
        sent.map (fun text => .returned none (prior ++ text)))) ∧
    (regularSpan start end_ → (end_.absDay - start.absDay + 1).toNat ≤ fuel →
      ∃ text : Str,
        (∀ sink : σ,
          Write parse w fuel event sink = some (.returned none (w.w.Write sink text).1) ∧
          Write parse w fuel event (w.w.Write sink text).1 =
            some (.returned none (w.w.Write (w.w.Write sink text).1 text).1)) ∧
        (∀ prior : Str,
          Write parse (NewDiaryWriter bufferSink w.dateStyle) fuel event prior =
            some (.returned none (prior ++ text)) ∧
          Write parse (NewDiaryWriter bufferSink w.dateStyle) fuel event (prior ++ text) =
            some (.returned none (prior ++ text ++ text)))) := by
  have hany : ∀ (τ : Type) (v : DiaryWriter τ) (sink : τ), v.dateStyle = w.dateStyle →
      Write parse v fuel event sink =
        ((splitLoop fuel start end_ []).map (blocksText w.dateStyle event)).map
          (fun text => .returned none (v.w.Write sink text).1) := by
    intro τ v sink hv
    rw [Write_eq parse v fuel event sink start end_ hs he (by rw [hv]; exact hst), hv,
      Option.map_map]
    rfl
  refine ⟨⟨(splitLoop fuel start end_ []).map (blocksText w.dateStyle event),
    fun sink => hany σ w sink rfl,
    fun prior => hany Str (NewDiaryWriter bufferSink w.dateStyle) prior rfl⟩, ?_⟩
  intro hreg hfuel
  have hd := hreg.2.1
  have hb := (rangeCount_bounds start end_ hd).2.1
  have hrs := splitLoop_expected start end_ fuel hreg (by omega)
  simp only [hrs, Option.map_some'] at hany
  refine ⟨blocksText w.dateStyle event (expectedRanges start end_), ?_, ?_⟩
  · intro sink
    exact ⟨hany σ w sink rfl, hany σ w _ rfl⟩
  · intro prior
    exact ⟨hany Str (NewDiaryWriter bufferSink w.dateStyle) prior rfl,
      hany Str (NewDiaryWriter bufferSink w.dateStyle) (prior ++ _) rfl⟩

theorem C17_witness :
    ParseRFC3339 tripEvent.Start.DateTime = .ok ⟨1710108000, 0, ⟨0, []⟩⟩ ∧
      ParseRFC3339 tripEvent.End.DateTime = .ok ⟨1710138600, 0, ⟨0, []⟩⟩ ∧
      regularSpan ⟨1710108000, 0, ⟨0, []⟩⟩ ⟨1710138600, 0, ⟨0, []⟩⟩ ∧
      Write ParseRFC3339 (NewDiaryWriter bufferSink DateStyleEU) 2 tripEvent [] =
        some (.returned none
          ("03/10/2024 22:00-24:00 Trip\n Location: Room 1\n Floor 2\n" ++
            "03/11/2024 00:00-06:30 Trip\n Location: Room 1\n Floor 2\n").toList) ∧
      Write ParseRFC3339 (NewDiaryWriter bufferSink DateStyleEU) 2 tripEvent
          ("03/10/2024 22:00-24:00 Trip\n Location: Room 1\n Floor 2\n" ++
            "03/11/2024 00:00-06:30 Trip\n Location: Room 1\n Floor 2\n").toList =
        some (.returned none
          ("03/10/2024 22:00-24:00 Trip\n Location: Room 1\n Floor 2\n" ++
            "03/11/2024 00:00-06:30 Trip\n Location: Room 1\n Floor 2\n" ++
            "03/10/2024 22:00-24:00 Trip\n Location: Room 1\n Floor 2\n" ++
            "03/11/2024 00:00-06:30 Trip\n Location: Room 1\n Floor 2\n").toList) ∧
      ∃ text : Str,
        (∀ sink : Str,
          Write ParseRFC3339 (NewDiaryWriter bufferSink DateStyleEU) 2 tripEvent sink =
            some (.returned none
              ((NewDiaryWriter bufferSink DateStyleEU).w.Write sink text).1) ∧
          Write ParseRFC3339 (NewDiaryWriter bufferSink DateStyleEU) 2 tripEvent
              ((NewDiaryWriter bufferSink DateStyleEU).w.Write sink text).1 =
            some (.returned none ((NewDiaryWriter bufferSink DateStyleEU).w.Write
              ((NewDiaryWriter bufferSink DateStyleEU).w.Write sink text).1 text).1)) ∧
        (∀ prior : Str,
          Write ParseRFC3339
              (NewDiaryWriter bufferSink (NewDiaryWriter bufferSink DateStyleEU).dateStyle) 2
              tripEvent prior = some (.returned none (prior ++ text)) ∧
          Write ParseRFC3339
              (NewDiaryWriter bufferSink (NewDiaryWriter bufferSink DateStyleEU).dateStyle) 2
              tripEvent (prior ++ text) = some (.returned none (prior ++ text ++ text))) :=
  ⟨rfl, rfl, by decide, rfl, rfl,
    (C17_write_twice ParseRFC3339 (NewDiaryWriter bufferSink DateStyleEU) 2 tripEvent
      ⟨1710108000, 0, ⟨0, []⟩⟩ ⟨1710138600, 0, ⟨0, []⟩⟩ rfl rfl (Or.inr (Or.inr rfl))).2
      (by decide) (by decide)⟩

theorem splitLoop_never_leaves : ∀ (fuel : Nat) (b e : Time) (acc : List timeRange),
    e.absDay < b.absDay →
    (∀ d : Int, b.absDay < d → b.loc.hasMidnight d) →
    (∀ d : Int, b.absDay < d → (midnight d b.loc).Equal e = false) →
    splitLoop fuel b e acc = none := by
  intro fuel
  induction fuel with
  | zero => intro b e acc _ _ _; rfl
  | succ f ih =>
    intro b e acc hday hmid hcond
    have hne : b.absDay ≠ e.absDay := by omega
    have heq : ¬ ((midnight (b.absDay + 1) b.loc).Equal e = true) := by
      rw [hcond (b.absDay + 1) (by omega)]; simp
    have hm1 := hmid (b.absDay + 1) (by omega)
    rw [splitLoop_succ, if_neg hne, if_neg heq]
    apply ih
    · rw [absDay_midnight _ _ hm1]; omega
    · intro d hd
      rw [absDay_midnight _ _ hm1] at hd
      rw [loc_midnight]
      exact hmid d (by omega)
    · intro d hd
      rw [absDay_midnight _ _ hm1] at hd
      rw [loc_midnight]
      exact hcond d (by omega)

theorem never_Equal_of_same_loc (s e : Time) (hloc : s.loc = e.loc)
    (hday : e.absDay < s.absDay) (d : Int) (hd : s.absDay < d) (hm : s.loc.hasMidnight d) :
    (midnight d s.loc).Equal e = false := by
  cases h : (midnight d s.loc).Equal e with
  | false => rfl
  | true =>
    have := absDay_of_Equal_midnight d e s.loc hloc hm h
    omega

/-- C18 as stated fails for timestamps with different offsets: start 2024-01-02T10:00+14:00
and end 2024-01-01T22:00-12:00 are in order as instants, the calendar day of `end` is before
that of `start`, and yet the loop leaves after one iteration, because the midnight that
follows `start` in its zone is the instant `end`; `Write` sends one block. -/
theorem C18_counterexample :
    ParseRFC3339 "2024-01-02T10:00:00+14:00".toList = .ok ⟨1704139200, 0, ⟨50400, []⟩⟩ ∧
      ParseRFC3339 "2024-01-01T22:00:00-12:00".toList = .ok ⟨1704189600, 0, ⟨-43200, []⟩⟩ ∧
      (⟨1704139200, 0, ⟨50400, []⟩⟩ : Time).le ⟨1704189600, 0, ⟨-43200, []⟩⟩ ∧
      (⟨1704189600, 0, ⟨-43200, []⟩⟩ : Time).absDay < (⟨1704139200, 0, ⟨50400, []⟩⟩ : Time).absDay ∧
      (⟨1704139200, 0, ⟨50400, []⟩⟩ : Time).Date = (2024, 1, 2) ∧
      (⟨1704189600, 0, ⟨-43200, []⟩⟩ : Time).Date = (2024, 1, 1) ∧
      splitLoop 1 ⟨1704139200, 0, ⟨50400, []⟩⟩ ⟨1704189600, 0, ⟨-43200, []⟩⟩ [] =
        some [⟨⟨1704103200, 0, ⟨50400, []⟩⟩, "10:00".toList, "24:00".toList⟩] ∧
      Write ParseRFC3339 (NewDiaryWriter bufferSink DateStyleISO) 1
          (exampleEvent "2024-01-02T10:00:00+14:00" "2024-01-01T22:00:00-12:00" "") [] =
        some (.returned none "2024/01/02 10:00-24:00 Standup\n".toList) :=
  ⟨rfl, rfl, by decide, by decide, rfl, rfl, rfl, rfl⟩

/-- C18, amended. If the calendar day of `end` is strictly before the calendar day of
`start`, every day after the day of `start` begins, in the location of `start`, with a
midnight that `time.Date` finds (as every day does in a zone without transitions), and either
the two times are in one location or no midnight of the location of `start` after the day of
`start` is the instant `end`, then the first loop of `Write` never leaves: each iteration
appends one time range and moves the cursor to the midnight of the next day, and no number of
iterations reaches a `break`; so `Write` never returns and nothing is written. -/
theorem C18_loop_never_leaves (s e : Time) (hday : e.absDay < s.absDay)
    (hmid : ∀ d : Int, s.absDay < d → s.loc.hasMidnight d)
    (hcond : s.loc = e.loc ∨
      ∀ d : Int, s.absDay < d → (midnight d s.loc).Equal e = false) :
    (∀ (fuel : Nat) (acc : List timeRange),
      splitLoop (fuel + 1) s e acc =
        splitLoop fuel (Date s.Year s.Month (s.Day + 1) 0 0 0 0 s.Location) e
          (acc ++ [⟨Date s.Year s.Month s.Day 0 0 0 0 s.Location, formatTime s,
            "24:00".toList⟩])) ∧
    (Date s.Year s.Month (s.Day + 1) 0 0 0 0 s.Location).absDay = s.absDay + 1 ∧
    (∀ (fuel : Nat) (acc : List timeRange), splitLoop fuel s e acc = none) ∧
    (∀ {σ : Type} (parse : Str → Except Str Time) (w : DiaryWriter σ) (fuel : Nat)
      (event : Event) (sink : σ),
      parse event.Start.DateTime = .ok s → parse event.End.DateTime = .ok e →
      Write parse w fuel event sink = none) := by
  have hc : ∀ d : Int, s.absDay < d → (midnight d s.loc).Equal e = false := by
    rcases hcond with hloc | h
    · exact fun d hd => never_Equal_of_same_loc s e hloc hday d hd (hmid d hd)
    · exact h
  have hnone : ∀ (fuel : Nat) (acc : List timeRange), splitLoop fuel s e acc = none :=
    fun fuel acc => splitLoop_never_leaves fuel s e acc hday hmid hc
  refine ⟨?_, ?_, hnone, ?_⟩
  · intro fuel acc
    have hne : s.absDay ≠ e.absDay := by omega
    have heq : ¬ ((midnight (s.absDay + 1) s.loc).Equal e = true) := by
      rw [hc (s.absDay + 1) (by omega)]; simp
    rw [splitLoop_succ, if_neg hne, if_neg heq, Date_self, Date_self0]
  · rw [Date_self, absDay_midnight _ _ (hmid _ (by omega))]
  · intro σ parse w fuel event sink hs he
    exact Write_none parse w fuel event sink s e hs he (hnone fuel [])

theorem C18_witness :
    (⟨1704153600, 0, ⟨0, []⟩⟩ : Time).absDay < (⟨1704326400, 0, ⟨0, []⟩⟩ : Time).absDay ∧
      ParseRFC3339 "2024-01-04T00:00:00Z".toList = .ok ⟨1704326400, 0, ⟨0, []⟩⟩ ∧
      ParseRFC3339 "2024-01-02T00:00:00Z".toList = .ok ⟨1704153600, 0, ⟨0, []⟩⟩ ∧
      splitLoop 1000 ⟨1704326400, 0, ⟨0, []⟩⟩ ⟨1704153600, 0, ⟨0, []⟩⟩ [] = none ∧
      Write ParseRFC3339 (NewDiaryWriter bufferSink DateStyleISO) 1000
        (exampleEvent "2024-01-04T00:00:00Z" "2024-01-02T00:00:00Z" "") [] = none :=
  ⟨by decide, rfl, rfl,
    (C18_loop_never_leaves ⟨1704326400, 0, ⟨0, []⟩⟩ ⟨1704153600, 0, ⟨0, []⟩⟩ (by decide)
      (fun d _ => hasMidnight_fixed _ rfl d) (Or.inl rfl)).2.2.1 1000 [],
    (C18_loop_never_leaves ⟨1704326400, 0, ⟨0, []⟩⟩ ⟨1704153600, 0, ⟨0, []⟩⟩ (by decide)
      (fun d _ => hasMidnight_fixed _ rfl d) (Or.inl rfl)).2.2.2 ParseRFC3339
      (NewDiaryWriter bufferSink DateStyleISO) 1000
      (exampleEvent "2024-01-04T00:00:00Z" "2024-01-02T00:00:00Z" "") [] rfl rfl⟩

theorem indentSpec_cons (c : Char) (cs : Str) :
    indentSpec (c :: cs) =
      if c = '\n' then '\n' :: ' ' :: indentSpec cs else c :: indentSpec cs := by
  simp only [indentSpec, strings.Split]
  by_cases hc : c = '\n'
  · simp only [hc, if_true]
    cases h : strings.Split cs '\n' with
    | nil => exact absurd h (strings.Split_ne_nil cs '\n')
    | cons p ps => simp
  · simp only [hc, if_false]
    cases h : strings.Split cs '\n' with
    | nil => exact absurd h (strings.Split_ne_nil cs '\n')
    | cons p ps => simp

theorem prefixString_eq_indentNewlines (s : Str) : prefixString s = indentNewlines s := by
  rw [prefixString_eq_indentSpec]
  induction s with
  | nil => rfl
  | cons c cs ih => rw [indentSpec_cons, ih]; rfl

theorem length_indentNewlines (s : Str) :
    (indentNewlines s).length = s.length + s.count '\n' := by
  induction s with
  | nil => rfl
  | cons c cs ih =>
    simp only [indentNewlines]
    by_cases hc : c = '\n'
    · subst hc
      simp [ih]
      omega
    · have hc' : ¬ ('\n' = c) := fun h => hc h.symm
      simp [hc, ih, List.count_cons, hc']
      omega

theorem dropIndent_indentNewlines (s : Str) : dropIndent false (indentNewlines s) = s := by
  induction s with
  | nil => rfl
  | cons c cs ih =>
    simp only [indentNewlines]
    by_cases hc : c = '\n'
    · subst hc
      simp [dropIndent, ih]
    · have hb : (c == '\n') = false := by simp [hc]
      simp [hc, dropIndent, hb, ih]

/-- C19. For every text, `prefixString` gives the text with every line break replaced by a
line break followed by one space; so the length of the result is the length of the text plus
the number of its line breaks, and deleting the one space that follows each line break of
the result gives the text back. -/
theorem C19_prefixString_replace :
    (∀ s : Str, prefixString s = indentNewlines s) ∧
      (∀ s : Str, (prefixString s).length = s.length + s.count '\n') ∧
      (∀ s : Str, dropIndent false (prefixString s) = s) ∧
      prefixString "a\n\n b\n".toList = "a\n \n  b\n ".toList := by
  refine ⟨prefixString_eq_indentNewlines, ?_, ?_, rfl⟩
  · intro s
    rw [prefixString_eq_indentNewlines, length_indentNewlines]
  · intro s
    rw [prefixString_eq_indentNewlines, dropIndent_indentNewlines]


end gcal2diary
